import Mathlib

/-!
Verification of the igh-data-sync sync engine against its specification.

The Python source is shallowly embedded: JSON record values become `JVal`,
API records and JSON objects become association lists (`ObjData`), entity
tables become lists of `EntityRow`, and the SCD2 / option-set / client
operations become executable Lean functions mirroring the corresponding
Python functions statement by statement.  SQL `NULL` is `Option.none`;
`WHERE col = ?` comparisons use SQL three-valued semantics (`NULL` never
matches).  Theorems then settle the specification's claims against these
definitions.
-/

namespace IghDataSync

/-! #### Python string primitives

The embedding uses character-list implementations of the Python string
operations (`lower`, `upper`, `strip`, `startswith`, `endswith`, `in`,
lexicographic `<`) so that every definition evaluates inside the kernel. -/

/-- Python `str.lower()` (per-character case folding). -/
def pyLower (s : String) : String := ⟨s.data.map Char.toLower⟩

/-- Python `str.upper()` (per-character case folding). -/
def pyUpper (s : String) : String := ⟨s.data.map Char.toUpper⟩

/-- Python whitespace for `str.strip()`. -/
def isPySpace (c : Char) : Bool :=
  c == ' ' || c == '\t' || c == '\n' || c == '\r' || c == '\x0b' || c == '\x0c'

/-- Python `str.strip()`. -/
def pyStrip (s : String) : String :=
  ⟨((s.data.dropWhile isPySpace).reverse.dropWhile isPySpace).reverse⟩

/-- Python `s.startswith(pre)`. -/
def strStartsWith (s pre : String) : Bool := pre.data.isPrefixOf s.data

/-- Python `s.endswith(suf)`. -/
def strEndsWith (s suf : String) : Bool := suf.data.isSuffixOf s.data

def containsSubAux (pat : List Char) : List Char → Bool
  | [] => pat.isEmpty
  | x :: xs => pat.isPrefixOf (x :: xs) || containsSubAux pat xs

/-- Python `sub in s` (substring containment). -/
def strContainsSub (s sub : String) : Bool := containsSubAux sub.data s.data

def charListLe : List Char → List Char → Bool
  | [], _ => true
  | _ :: _, [] => false
  | a :: as, b :: bs =>
      if a.toNat < b.toNat then true
      else if b.toNat < a.toNat then false
      else charListLe as bs

/-- Python `a <= b` on strings (code-point lexicographic order, the order
`sorted`/`sort_keys` uses). -/
def strLeB (a b : String) : Bool := charListLe a.data b.data

/-- A JSON scalar value as it appears in a Dataverse API record
(string, integer, or null).  This is the value universe of the model. -/
inductive JVal where
  | s (v : String)
  | i (v : Int)
  | null
deriving DecidableEq, Repr

/-- A JSON object / Python dict: keys with values, in insertion order. -/
abbrev ObjData := List (String × JVal)

/-- `d.get(k)`-style lookup: `some v` iff the key is present (the value may
itself be `JVal.null`, mirroring a key bound to Python `None`). -/
def lookupKey (r : ObjData) (k : String) : Option JVal :=
  (r.find? (fun kv => kv.1 == k)).map (·.2)

/-- Python `dict.get(k)`: a missing key and a key bound to `None` both
read back as `None`. -/
def getKey (r : ObjData) (k : String) : JVal :=
  match lookupKey r k with
  | some v => v
  | none => JVal.null

/-- Python truthiness of a value read from a record (`if not entity_id`,
`api_record.get("modifiedon") or ...`). -/
def truthyV : JVal → Bool
  | .s v => !v.isEmpty
  | .i n => n != 0
  | .null => false

/-- Python truthiness of `d.get(k)` (missing key reads as `None`, falsy). -/
def truthy : Option JVal → Bool
  | some v => truthyV v
  | none => false

/-- SQL `col = ?` with two non-null-checked operands: `NULL` on either side
never matches (three-valued logic). -/
def sqlEqV (a b : JVal) : Bool :=
  match a, b with
  | .null, _ => false
  | _, .null => false
  | a, b => a == b

/-- SQL equality of a stored column value against a bound parameter.  Both
an absent key (`none`) and a key bound to Python `None` (`some .null`) are
stored as SQL `NULL`, and `NULL = anything` is never a match. -/
def sqlEq (a b : Option JVal) : Bool :=
  match a, b with
  | some x, some y => sqlEqV x y
  | _, _ => false

theorem eq_of_sqlEqV {x y : JVal} (h : sqlEqV x y = true) : x = y := by
  cases x <;> cases y <;> simp_all [sqlEqV]

theorem sqlEqV_self {x : JVal} (h : x ≠ JVal.null) : sqlEqV x x = true := by
  cases x with
  | s v => simp [sqlEqV]
  | i v => simp [sqlEqV]
  | null => exact absurd rfl h

theorem sqlEqV_eq_false_of_ne {x y : JVal} (h : x ≠ y) : sqlEqV x y = false := by
  cases hb : sqlEqV x y
  · rfl
  · exact absurd (eq_of_sqlEqV hb) h

theorem sqlEq_eq_false_of_ne_some {o : Option JVal} {k : JVal} (h : o ≠ some k) :
    sqlEq o (some k) = false := by
  cases o with
  | none => rfl
  | some x =>
    have hx : x ≠ k := by
      intro hc
      exact h (by rw [hc])
    show sqlEqV x k = false
    exact sqlEqV_eq_false_of_ne hx

theorem sqlEq_some_dest {a : Option JVal} {v : Option JVal} (h : sqlEq a v = true) :
    ∃ x y, a = some x ∧ v = some y ∧ x = y := by
  cases a with
  | none => simp [sqlEq] at h
  | some x =>
    cases v with
    | none => simp [sqlEq] at h
    | some y =>
      refine ⟨x, y, rfl, rfl, ?_⟩
      exact eq_of_sqlEqV (by simpa [sqlEq] using h)

/-! ### Canonical JSON payload

`upsert_batch` stores `json.dumps(api_record_clean, sort_keys=True)` where
`api_record_clean` drops every key starting with `"@odata."`.  The model
keeps the canonical payload as the sorted, filtered association list itself
(`json.dumps` is injective on such flat objects, so equality of the dumped
strings is equality of these lists). -/

/-- Drop the OData metadata keys, as in
`{k: v for k, v in api_record.items() if not k.startswith("@odata.")}`. -/
def stripOData (r : ObjData) : ObjData :=
  r.filter (fun kv => !(strStartsWith kv.1 "@odata."))

/-- Insert one key-value pair into a list sorted by key. -/
def insertByKey (kv : String × JVal) : ObjData → ObjData
  | [] => [kv]
  | x :: xs => if strLeB kv.1 x.1 then kv :: x :: xs else x :: insertByKey kv xs

/-- Sort an object's entries by key (`sort_keys=True`). -/
def sortByKey (r : ObjData) : ObjData :=
  r.foldr insertByKey []

/-- The canonical payload stored in `json_response`. -/
def canonicalJson (r : ObjData) : ObjData :=
  sortByKey (stripOData r)

/-! ### SCD2 entity tables (`scd2_upsert.py`)

A stored entity row: surrogate `row_id` (AUTOINCREMENT), the projected data
columns, and the SCD2 system columns.  `valid_to = none` is SQL `NULL`,
i.e. the active version. -/

structure EntityRow where
  row_id : Nat
  vals : ObjData
  json_response : ObjData
  sync_time : String
  valid_from : String
  valid_to : Option String
deriving DecidableEq, Repr

/-- A canonical record handed to `upsert_scd2`: the projected data columns
plus the `json_response`, `sync_time` and `valid_from` entries that
`upsert_batch` always sets (§4.D: "canonical record with `valid_from`,
`sync_time`, `json_response`"). -/
structure EntityRecord where
  vals : ObjData
  json_response : ObjData
  sync_time : String
  valid_from : String
deriving DecidableEq, Repr

/-- Result record returned by `upsert_scd2` (`SCD2Result` in `manager.py`). -/
structure SCD2Result where
  is_new_entity : Bool
  version_created : Bool
  valid_from : String
  business_key_value : Option JVal
deriving DecidableEq, Repr

/-- The business-key column value stored in a row. -/
def rowBk (bkCol : String) (row : EntityRow) : Option JVal :=
  lookupKey row.vals bkCol

/-- `WHERE {business_key} = ? AND valid_to IS NULL` as a row predicate. -/
def isActiveRow (bkCol : String) (bkv : Option JVal) (row : EntityRow) : Bool :=
  sqlEq (rowBk bkCol row) bkv && row.valid_to == none

/-- The new row inserted by `upsert_scd2` (record columns plus
`valid_to = NULL`, surrogate id from the AUTOINCREMENT counter). -/
def newEntityRow (nextId : Nat) (r : EntityRecord) : EntityRow :=
  ⟨nextId, r.vals, r.json_response, r.sync_time, r.valid_from, none⟩

/-- `SCD2Upserter.upsert_scd2`.  The table is the row list in rowid order;
`nextId` models the AUTOINCREMENT counter.  Returns the updated table, the
updated counter and the `SCD2Result`. -/
def upsert_scd2 (tbl : List EntityRow) (nextId : Nat) (bkCol : String)
    (r : EntityRecord) : List EntityRow × Nat × SCD2Result :=
  let bkv := lookupKey r.vals bkCol
  match tbl.find? (isActiveRow bkCol bkv) with
  | none =>
      (tbl ++ [newEntityRow nextId r], nextId + 1,
        ⟨true, true, r.valid_from, bkv⟩)
  | some a =>
      if a.json_response == r.json_response then
        (tbl.map (fun row =>
            if row.row_id == a.row_id then { row with sync_time := r.sync_time } else row),
         nextId, ⟨false, false, r.valid_from, bkv⟩)
      else
        (tbl.map (fun row =>
            if row.row_id == a.row_id then { row with valid_to := some r.valid_from } else row)
           ++ [newEntityRow nextId r],
         nextId + 1, ⟨false, true, r.valid_from, bkv⟩)

/-- Spec invariant 1 / testable property 1: at most one active version per
business-key value. -/
def AtMostOneActive (bkCol : String) (tbl : List EntityRow) : Prop :=
  ∀ k : JVal, (tbl.filter (isActiveRow bkCol (some k))).length ≤ 1

/-! ### List helper lemmas -/

theorem find?_eq_some_of_unique {α : Type _} (p : α → Bool) (l : List α) (a : α)
    (ha : a ∈ l) (hpa : p a = true) (huniq : ∀ b ∈ l, p b = true → b = a) :
    l.find? p = some a := by
  induction l with
  | nil => cases ha
  | cons x xs ih =>
    by_cases hx : p x = true
    · have hxa : x = a := huniq x (List.mem_cons_self _ _) hx
      rw [List.find?_cons_of_pos _ hx, hxa]
    · have hax : a ∈ xs := by
        rcases List.mem_cons.mp ha with h | h
        · exact absurd (h ▸ hpa) hx
        · exact h
      rw [List.find?_cons_of_neg _ (by simpa using hx)]
      exact ih hax (fun b hb hpb => huniq b (List.mem_cons_of_mem _ hb) hpb)

theorem length_filter_map_le {α : Type _} (g : α → α) (p : α → Bool) (l : List α)
    (h : ∀ x, p (g x) = true → p x = true) :
    ((l.map g).filter p).length ≤ (l.filter p).length := by
  induction l with
  | nil => simp
  | cons x xs ih =>
    simp only [List.map_cons, List.filter_cons]
    by_cases hg : p (g x) = true
    · rw [if_pos hg, if_pos (h x hg)]
      simpa using ih
    · rw [if_neg hg]
      by_cases hx : p x = true
      · rw [if_pos hx]
        exact Nat.le_succ_of_le ih
      · rw [if_neg hx]
        exact ih

theorem length_filter_map_eq {α : Type _} (g : α → α) (p : α → Bool) (l : List α)
    (h : ∀ x, p (g x) = p x) :
    ((l.map g).filter p).length = (l.filter p).length := by
  induction l with
  | nil => simp
  | cons x xs ih =>
    simp only [List.map_cons, List.filter_cons, h]
    by_cases hx : p x = true
    · rw [if_pos hx, if_pos hx]
      simpa using ih
    · rw [if_neg hx, if_neg hx]
      exact ih

theorem eq_singleton_of_mem_of_length_le_one {α : Type _} {l : List α} {a : α}
    (ha : a ∈ l) (hlen : l.length ≤ 1) : l = [a] := by
  match l, ha with
  | [x], ha =>
    have : a = x := by simpa using ha
    rw [this]
  | x :: y :: xs, _ => simp at hlen

theorem filter_map_eq_nil {α : Type _} (g : α → α) (p : α → Bool) (l : List α)
    (h : ∀ x ∈ l, p (g x) = false) : (l.map g).filter p = [] := by
  rw [List.filter_eq_nil_iff]
  intro b hb
  rcases List.mem_map.mp hb with ⟨x, hx, rfl⟩
  simp [h x hx]

/-! ### Claim C1: the SCD2 upsert case analysis -/

/-- C1.  For every table state, business-key column and canonical record:
if no row with the record's business-key value is active the record is
inserted with `valid_to = NULL` and `(is_new_entity, version_created) =
(true, true)`; if the (unique) active row stores the same `json_response`
only its `sync_time` is updated and `(false, false)` is returned; if the
payloads differ the active row is closed at the new record's `valid_from`,
the record is inserted open, and `(false, true)` is returned. -/
theorem upsert_scd2_case_analysis (tbl : List EntityRow) (nextId : Nat)
    (bkCol : String) (r : EntityRecord) :
    ((∀ row ∈ tbl, ¬ isActiveRow bkCol (lookupKey r.vals bkCol) row = true) →
      upsert_scd2 tbl nextId bkCol r =
        (tbl ++ [newEntityRow nextId r], nextId + 1,
          ⟨true, true, r.valid_from, lookupKey r.vals bkCol⟩))
    ∧
    (∀ a, a ∈ tbl → isActiveRow bkCol (lookupKey r.vals bkCol) a = true →
      (∀ b ∈ tbl, isActiveRow bkCol (lookupKey r.vals bkCol) b = true → b = a) →
      ((a.json_response = r.json_response →
        upsert_scd2 tbl nextId bkCol r =
          (tbl.map (fun row =>
              if row.row_id == a.row_id then { row with sync_time := r.sync_time } else row),
           nextId, ⟨false, false, r.valid_from, lookupKey r.vals bkCol⟩))
       ∧
       (a.json_response ≠ r.json_response →
        upsert_scd2 tbl nextId bkCol r =
          (tbl.map (fun row =>
              if row.row_id == a.row_id then { row with valid_to := some r.valid_from } else row)
             ++ [newEntityRow nextId r],
           nextId + 1, ⟨false, true, r.valid_from, lookupKey r.vals bkCol⟩)))) := by
  constructor
  · intro hnone
    have hfind : tbl.find? (isActiveRow bkCol (lookupKey r.vals bkCol)) = none := by
      rw [List.find?_eq_none]
      intro x hx
      exact hnone x hx
    simp [upsert_scd2, hfind]
  · intro a ha hpa huniq
    have hfind : tbl.find? (isActiveRow bkCol (lookupKey r.vals bkCol)) = some a :=
      find?_eq_some_of_unique _ _ _ ha hpa huniq
    constructor
    · intro hjson
      simp [upsert_scd2, hfind, hjson]
    · intro hjson
      have : (a.json_response == r.json_response) = false := by
        simpa using hjson
      simp [upsert_scd2, hfind, this]

/-- Witness for C1: a concrete insert into an empty table. -/
theorem upsert_scd2_case_analysis_witness :
    upsert_scd2 [] 0 "accountid"
        ⟨[("accountid", JVal.s "a1")], [("accountid", JVal.s "a1")], "t0", "v0"⟩ =
      ([newEntityRow 0 ⟨[("accountid", JVal.s "a1")], [("accountid", JVal.s "a1")], "t0", "v0"⟩],
        1, ⟨true, true, "v0", some (JVal.s "a1")⟩) :=
  (upsert_scd2_case_analysis [] 0 "accountid"
      ⟨[("accountid", JVal.s "a1")], [("accountid", JVal.s "a1")], "t0", "v0"⟩).1
    (by intro row h; cases h)

/-! ### Claim C2: the at-most-one-active invariant is preserved -/

theorem isActiveRow_set_sync_time (bkCol : String) (v : Option JVal)
    (row : EntityRow) (t : String) :
    isActiveRow bkCol v { row with sync_time := t } = isActiveRow bkCol v row := by
  simp [isActiveRow, rowBk]

theorem isActiveRow_close (bkCol : String) (v : Option JVal)
    (row : EntityRow) (t : String) :
    isActiveRow bkCol v { row with valid_to := some t } = false := by
  simp [isActiveRow, rowBk]

theorem isActiveRow_newEntityRow (bkCol : String) (k : JVal)
    (nextId : Nat) (r : EntityRecord) :
    isActiveRow bkCol (some k) (newEntityRow nextId r) =
      sqlEq (lookupKey r.vals bkCol) (some k) := by
  simp [isActiveRow, rowBk, newEntityRow]

theorem upsert_scd2_tbl_of_none (tbl : List EntityRow) (nextId : Nat)
    (bkCol : String) (r : EntityRecord)
    (hfind : tbl.find? (isActiveRow bkCol (lookupKey r.vals bkCol)) = none) :
    (upsert_scd2 tbl nextId bkCol r).1 = tbl ++ [newEntityRow nextId r] := by
  simp [upsert_scd2, hfind]

theorem upsert_scd2_tbl_of_same (tbl : List EntityRow) (nextId : Nat)
    (bkCol : String) (r : EntityRecord) (a : EntityRow)
    (hfind : tbl.find? (isActiveRow bkCol (lookupKey r.vals bkCol)) = some a)
    (hjson : (a.json_response == r.json_response) = true) :
    (upsert_scd2 tbl nextId bkCol r).1 =
      tbl.map (fun row =>
        if row.row_id == a.row_id then { row with sync_time := r.sync_time } else row) := by
  simp [upsert_scd2, hfind, hjson]

theorem upsert_scd2_tbl_of_diff (tbl : List EntityRow) (nextId : Nat)
    (bkCol : String) (r : EntityRecord) (a : EntityRow)
    (hfind : tbl.find? (isActiveRow bkCol (lookupKey r.vals bkCol)) = some a)
    (hjson : (a.json_response == r.json_response) = false) :
    (upsert_scd2 tbl nextId bkCol r).1 =
      tbl.map (fun row =>
        if row.row_id == a.row_id then { row with valid_to := some r.valid_from } else row)
        ++ [newEntityRow nextId r] := by
  simp [upsert_scd2, hfind, hjson]

/-- Invariant preservation, shared between the C2 claim and the batch
idempotence development. -/
theorem scd2_atMostOneActive_step (tbl : List EntityRow) (nextId : Nat)
    (bkCol : String) (r : EntityRecord) (h : AtMostOneActive bkCol tbl) :
    AtMostOneActive bkCol (upsert_scd2 tbl nextId bkCol r).1 := by
  intro k
  cases hfind : tbl.find? (isActiveRow bkCol (lookupKey r.vals bkCol)) with
  | none =>
    rw [upsert_scd2_tbl_of_none tbl nextId bkCol r hfind]
    simp only [List.filter_append, List.length_append]
    by_cases hnew : isActiveRow bkCol (some k) (newEntityRow nextId r) = true
    · have hk : lookupKey r.vals bkCol = some k := by
        have hsq : sqlEq (lookupKey r.vals bkCol) (some k) = true := by
          rw [← isActiveRow_newEntityRow bkCol k nextId r]
          exact hnew
        rcases sqlEq_some_dest hsq with ⟨x, y, hx, hy, hxy⟩
        rw [hx, hxy, ← hy]
      have hempty : tbl.filter (isActiveRow bkCol (some k)) = [] := by
        rw [List.filter_eq_nil_iff]
        intro x hx
        have := List.find?_eq_none.mp hfind x hx
        rw [hk] at this
        simpa using this
      simp [hempty, List.filter_cons, hnew]
    · have hnew' : isActiveRow bkCol (some k) (newEntityRow nextId r) = false := by
        simpa using hnew
      simp only [List.filter_cons, hnew']
      simpa using h k
  | some a =>
    by_cases hjson : (a.json_response == r.json_response) = true
    · rw [upsert_scd2_tbl_of_same tbl nextId bkCol r a hfind hjson]
      have := length_filter_map_eq
        (fun row => if row.row_id == a.row_id then { row with sync_time := r.sync_time } else row)
        (isActiveRow bkCol (some k)) tbl
        (by
          intro x
          by_cases hid : (x.row_id == a.row_id) = true
          · simp [hid, isActiveRow_set_sync_time]
          · simp [hid])
      rw [this]
      exact h k
    · simp only [Bool.not_eq_true] at hjson
      rw [upsert_scd2_tbl_of_diff tbl nextId bkCol r a hfind hjson]
      simp only [List.filter_append, List.length_append]
      by_cases hnewb : isActiveRow bkCol (some k) (newEntityRow nextId r) = true
      · have hk : lookupKey r.vals bkCol = some k := by
          have hsq : sqlEq (lookupKey r.vals bkCol) (some k) = true := by
            rw [← isActiveRow_newEntityRow bkCol k nextId r]
            exact hnewb
          rcases sqlEq_some_dest hsq with ⟨x, y, hx, hy, hxy⟩
          rw [hx, hxy, ← hy]
        have hpa : isActiveRow bkCol (some k) a = true := by
          rw [← hk]
          exact List.find?_some hfind
        have hmem : a ∈ tbl := List.mem_of_find?_eq_some hfind
        have hafilter : a ∈ tbl.filter (isActiveRow bkCol (some k)) :=
          List.mem_filter.mpr ⟨hmem, hpa⟩
        have hsingle : tbl.filter (isActiveRow bkCol (some k)) = [a] :=
          eq_singleton_of_mem_of_length_le_one hafilter (h k)
        have hclosed :
            ((tbl.map (fun row =>
                if row.row_id == a.row_id then { row with valid_to := some r.valid_from } else row)).filter
              (isActiveRow bkCol (some k))) = [] := by
          apply filter_map_eq_nil
          intro x hx
          by_cases hid : (x.row_id == a.row_id) = true
          · simp [hid, isActiveRow_close]
          · simp only [hid, Bool.false_eq_true, if_false]
            by_cases hpx : isActiveRow bkCol (some k) x = true
            · have : x ∈ tbl.filter (isActiveRow bkCol (some k)) :=
                List.mem_filter.mpr ⟨hx, hpx⟩
              rw [hsingle] at this
              have hxa : x = a := by simpa using this
              rw [hxa] at hid
              simp at hid
            · simpa using hpx
        rw [hclosed]
        have hnewlen :
            (([newEntityRow nextId r]).filter (isActiveRow bkCol (some k))).length ≤ 1 := by
          simp only [List.filter_cons, List.filter_nil]
          by_cases hn : isActiveRow bkCol (some k) (newEntityRow nextId r) = true
          · simp [hn]
          · simp only [Bool.not_eq_true] at hn
            simp [hn]
        simpa using hnewlen
      · have hnew : isActiveRow bkCol (some k) (newEntityRow nextId r) = false := by
          simpa using hnewb
        simp only [List.filter_cons, hnew, Bool.false_eq_true, if_false, List.filter_nil,
          List.length_nil, Nat.add_zero]
        calc ((tbl.map (fun row =>
                if row.row_id == a.row_id then { row with valid_to := some r.valid_from } else row)).filter
              (isActiveRow bkCol (some k))).length
            ≤ (tbl.filter (isActiveRow bkCol (some k))).length := by
              apply length_filter_map_le
              intro x hgx
              by_cases hid : (x.row_id == a.row_id) = true
              · rw [hid] at hgx
                simp only [if_true] at hgx
                rw [isActiveRow_close] at hgx
                cases hgx
              · simpa [hid] using hgx
          _ ≤ 1 := h k

/-- C2.  If each business-key value has at most one active row, then after
any single SCD2 upsert (any business-key column, any canonical record) the
table again has at most one active row per business-key value. -/
theorem upsert_scd2_preserves_atMostOneActive (tbl : List EntityRow) (nextId : Nat)
    (bkCol : String) (r : EntityRecord) (h : AtMostOneActive bkCol tbl) :
    AtMostOneActive bkCol (upsert_scd2 tbl nextId bkCol r).1 :=
  scd2_atMostOneActive_step tbl nextId bkCol r h

/-- Witness for C2: the invariant holds for the empty table and is kept by
a concrete upsert into it. -/
theorem upsert_scd2_preserves_atMostOneActive_witness :
    AtMostOneActive "accountid"
      (upsert_scd2 [] 0 "accountid"
        ⟨[("accountid", JVal.s "a1")], [("accountid", JVal.s "a1")], "t0", "v0"⟩).1 :=
  upsert_scd2_preserves_atMostOneActive [] 0 "accountid"
    ⟨[("accountid", JVal.s "a1")], [("accountid", JVal.s "a1")], "t0", "v0"⟩
    (fun k => by simp)

/-! ### Option-set lookup and junction tables (`optionset_storage.py`) -/

/-- A row of a `_optionset_<field>` lookup table
(`code INTEGER PRIMARY KEY, label TEXT, first_seen TEXT`). -/
structure LookupRow where
  code : Int
  label : JVal
  first_seen : String
deriving DecidableEq, Repr

/-- `OptionSetStorage.upsert_option_set_value` on one lookup table: if the
code exists, update the label in place when it changed (keeping the original
`first_seen`); otherwise insert `(code, label, now)`. -/
def upsert_option_set_value (tbl : List LookupRow) (code : Int) (label : JVal)
    (now : String) : List LookupRow :=
  match tbl.find? (fun row => row.code == code) with
  | some existing =>
      if existing.label != label then
        tbl.map (fun row => if row.code == code then { row with label := label } else row)
      else tbl
  | none => tbl ++ [⟨code, label, now⟩]

/-- The row stored for a code, if any (`SELECT ... WHERE code = ?`). -/
def lookupCodeRow (tbl : List LookupRow) (c : Int) : Option LookupRow :=
  tbl.find? (fun row => row.code == c)

def firstSeenOf (tbl : List LookupRow) (c : Int) : Option String :=
  (lookupCodeRow tbl c).map (·.first_seen)

def labelOf (tbl : List LookupRow) (c : Int) : Option JVal :=
  (lookupCodeRow tbl c).map (·.label)

/-- A sequence of `upsert_option_set_value` calls, in order. -/
def applyLookupOps (tbl : List LookupRow) (ops : List (Int × JVal × String)) :
    List LookupRow :=
  ops.foldl (fun acc op => upsert_option_set_value acc op.1 op.2.1 op.2.2) tbl

/-- A row of a `_junction_<entity>_<field>` table. -/
structure JunctionRow where
  junction_id : Nat
  entity_id : JVal
  option_code : Int
  valid_from : String
  valid_to : Option String
deriving DecidableEq, Repr

/-- `OptionSetStorage.snapshot_junction_relationships`: close the active
junction rows of the entity at `valid_from`, then insert one open row per
current option code. -/
def snapshot_junction_relationships (jt : List JunctionRow) (nextJid : Nat)
    (entityId : JVal) (optionCodes : List Int) (validFrom : String) :
    List JunctionRow × Nat :=
  (jt.map (fun row =>
      if sqlEqV row.entity_id entityId && row.valid_to == none then
        { row with valid_to := some validFrom }
      else row)
    ++ optionCodes.enum.map (fun p => ⟨nextJid + p.1, entityId, p.2, validFrom, none⟩),
   nextJid + optionCodes.length)

/-- A detected option set (`OptionSetDetector` / `DetectedOptionSet`):
`codes_and_labels` maps integer codes to formatted labels, in dict order. -/
structure DetectedOptionSet where
  field_name : String
  is_multi_select : Bool
  codes_and_labels : List (Int × JVal)
deriving DecidableEq, Repr

/-- One field's slice of `OptionSetStorage.populate_detected_option_sets`:
state is the field's lookup table, the junction table and its AUTOINCREMENT
counter.  Multi-select fields populate the lookup table and then snapshot
the junction exactly when the parent upsert created a version; without an
`SCD2Result` the backward-compatibility path clears and re-inserts;
single-select fields touch only the lookup table. -/
def populate_detected_option_set_field (opt : DetectedOptionSet)
    (lk : List LookupRow) (jt : List JunctionRow) (nextJid : Nat)
    (entityId : JVal) (scd2 : Option SCD2Result) (now : String) :
    List LookupRow × List JunctionRow × Nat :=
  if opt.is_multi_select then
    let lk' := opt.codes_and_labels.foldl
      (fun acc cl => upsert_option_set_value acc cl.1 cl.2 now) lk
    match scd2 with
    | none =>
        (lk',
         jt.filter (fun row => !sqlEqV row.entity_id entityId)
           ++ opt.codes_and_labels.enum.map
                (fun p => ⟨nextJid + p.1, entityId, p.2.1, now, none⟩),
         nextJid + opt.codes_and_labels.length)
    | some res =>
        if res.version_created then
          let s := snapshot_junction_relationships jt nextJid entityId
            (opt.codes_and_labels.map (·.1)) res.valid_from
          (lk', s.1, s.2)
        else (lk', jt, nextJid)
  else
    (opt.codes_and_labels.foldl
      (fun acc cl => upsert_option_set_value acc cl.1 cl.2 now) lk, jt, nextJid)

/-! ### Claim C4: junction snapshots run exactly on `version_created` -/

/-- C4.  For a multi-select option-set field processed with the parent's
`SCD2Result`: when `version_created = true` every active junction row of the
entity is stamped `valid_to := parent.valid_from` and one open row per
current option code is inserted with that `valid_from`; when
`version_created = false` the junction table is left unchanged. -/
theorem populate_junction_snapshot_spec (opt : DetectedOptionSet)
    (lk : List LookupRow) (jt : List JunctionRow) (nextJid : Nat)
    (entityId : JVal) (res : SCD2Result) (now : String)
    (hms : opt.is_multi_select = true) :
    ((res.version_created = true →
       (populate_detected_option_set_field opt lk jt nextJid entityId (some res) now).2.1 =
         jt.map (fun row =>
             if sqlEqV row.entity_id entityId && row.valid_to == none then
               { row with valid_to := some res.valid_from }
             else row)
           ++ (opt.codes_and_labels.map (·.1)).enum.map
               (fun p => ⟨nextJid + p.1, entityId, p.2, res.valid_from, none⟩))
     ∧
     (res.version_created = false →
       (populate_detected_option_set_field opt lk jt nextJid entityId (some res) now).2.1 = jt)) := by
  constructor
  · intro hv
    simp [populate_detected_option_set_field, hms, hv, snapshot_junction_relationships]
  · intro hv
    simp [populate_detected_option_set_field, hms, hv]

/-- Witness for C4: a concrete snapshot closing one active row and
inserting two new codes. -/
theorem populate_junction_snapshot_spec_witness :
    (populate_detected_option_set_field
        ⟨"categories", true, [(3, JVal.s "Finance"), (4, JVal.s "Manufacturing")]⟩
        [] [⟨0, JVal.s "a1", 1, "t0", none⟩] 1 (JVal.s "a1")
        (some ⟨false, true, "t1", some (JVal.s "a1")⟩) "now").2.1 =
      [⟨0, JVal.s "a1", 1, "t0", some "t1"⟩,
       ⟨1, JVal.s "a1", 3, "t1", none⟩, ⟨2, JVal.s "a1", 4, "t1", none⟩] := by
  have := (populate_junction_snapshot_spec
      ⟨"categories", true, [(3, JVal.s "Finance"), (4, JVal.s "Manufacturing")]⟩
      [] [⟨0, JVal.s "a1", 1, "t0", none⟩] 1 (JVal.s "a1")
      ⟨false, true, "t1", some (JVal.s "a1")⟩ "now" rfl).1 rfl
  rw [this]
  decide

/-! ### Claim C8: option-set lookup tables are monotonic -/

theorem find?_append_of_some {α : Type _} {p : α → Bool} {l₁ l₂ : List α} {a : α}
    (h : l₁.find? p = some a) : (l₁ ++ l₂).find? p = some a := by
  induction l₁ with
  | nil => simp [List.find?] at h
  | cons x xs ih =>
    by_cases hx : p x = true
    · rw [List.find?_cons_of_pos _ hx] at h
      rw [List.cons_append, List.find?_cons_of_pos _ hx]
      exact h
    · have hx' : ¬ p x = true := hx
      rw [List.find?_cons_of_neg _ hx'] at h
      rw [List.cons_append, List.find?_cons_of_neg _ hx']
      exact ih h

theorem find?_append_of_none {α : Type _} {p : α → Bool} {l₁ l₂ : List α}
    (h : l₁.find? p = none) : (l₁ ++ l₂).find? p = l₂.find? p := by
  induction l₁ with
  | nil => simp
  | cons x xs ih =>
    by_cases hx : p x = true
    · rw [List.find?_cons_of_pos _ hx] at h
      cases h
    · rw [List.find?_cons_of_neg _ hx] at h
      rw [List.cons_append, List.find?_cons_of_neg _ hx]
      exact ih h

theorem find?_map_pres {α : Type _} (g : α → α) (p : α → Bool) (l : List α)
    (h : ∀ x, p (g x) = p x) : (l.map g).find? p = (l.find? p).map g := by
  induction l with
  | nil => simp
  | cons x xs ih =>
    by_cases hx : p x = true
    · rw [List.map_cons, List.find?_cons_of_pos _ ((h x).trans hx),
        List.find?_cons_of_pos _ hx]
      simp
    · have hgx : ¬ p (g x) = true := by rw [h x]; exact hx
      rw [List.map_cons, List.find?_cons_of_neg _ hgx, List.find?_cons_of_neg _ hx]
      exact ih

theorem upsert_opt_eq_of_none (tbl : List LookupRow) (c : Int) (label : JVal)
    (now : String) (hfind : tbl.find? (fun row => row.code == c) = none) :
    upsert_option_set_value tbl c label now = tbl ++ [⟨c, label, now⟩] := by
  unfold upsert_option_set_value
  rw [hfind]

theorem upsert_opt_eq_of_changed (tbl : List LookupRow) (c : Int) (label : JVal)
    (now : String) (existing : LookupRow)
    (hfind : tbl.find? (fun row => row.code == c) = some existing)
    (hl : (existing.label != label) = true) :
    upsert_option_set_value tbl c label now =
      tbl.map (fun row => if row.code == c then { row with label := label } else row) := by
  unfold upsert_option_set_value
  rw [hfind]
  simp only [hl, if_true]

theorem upsert_opt_eq_of_unchanged (tbl : List LookupRow) (c : Int) (label : JVal)
    (now : String) (existing : LookupRow)
    (hfind : tbl.find? (fun row => row.code == c) = some existing)
    (hl : (existing.label != label) = false) :
    upsert_option_set_value tbl c label now = tbl := by
  unfold upsert_option_set_value
  rw [hfind]
  simp only [hl, Bool.false_eq_true, if_false]

theorem find?_cons_of_false {α : Type _} (p : α → Bool) (x : α) (xs : List α)
    (h : p x = false) : (x :: xs).find? p = xs.find? p := by
  apply List.find?_cons_of_neg
  simp [h]

theorem upsert_opt_code_pres (c c' : Int) (label : JVal) :
    ∀ x : LookupRow,
      ((fun row : LookupRow => row.code == c')
        ((fun row : LookupRow => if row.code == c then { row with label := label } else row) x))
      = ((fun row : LookupRow => row.code == c') x) := by
  intro x
  show ((if x.code == c then { x with label := label } else x).code == c') = (x.code == c')
  by_cases hx : (x.code == c) = true
  · rw [if_pos hx]
  · rw [if_neg hx]

theorem upsert_opt_nodup (tbl : List LookupRow) (c : Int) (label : JVal) (now : String)
    (h : (tbl.map (·.code)).Nodup) :
    ((upsert_option_set_value tbl c label now).map (·.code)).Nodup := by
  cases hfind : tbl.find? (fun row => row.code == c) with
  | none =>
    have hnotmem : c ∉ tbl.map (·.code) := by
      intro hmem
      rcases List.mem_map.mp hmem with ⟨row, hrow, hcode⟩
      have := List.find?_eq_none.mp hfind row hrow
      simp [hcode] at this
    rw [upsert_opt_eq_of_none tbl c label now hfind]
    simp only [List.map_append, List.map_cons, List.map_nil]
    rw [List.nodup_append]
    refine ⟨h, List.nodup_singleton c, ?_⟩
    intro a ha hb
    have hac : a = c := by simpa using hb
    exact hnotmem (hac ▸ ha)
  | some existing =>
    by_cases hl : (existing.label != label) = true
    · rw [upsert_opt_eq_of_changed tbl c label now existing hfind hl]
      have hmapeq : (tbl.map (fun row =>
          if row.code == c then { row with label := label } else row)).map (·.code) =
          tbl.map (·.code) := by
        rw [List.map_map]
        apply List.map_congr_left
        intro x _
        by_cases hx : (x.code == c) = true
        · simp only [Function.comp, hx, if_true]
        · simp only [Function.comp, hx, Bool.false_eq_true, if_false]
      rw [hmapeq]
      exact h
    · rw [upsert_opt_eq_of_unchanged tbl c label now existing hfind (by simpa using hl)]
      exact h

theorem upsert_opt_firstSeen_pres (tbl : List LookupRow) (c : Int) (label : JVal)
    (now : String) (c' : Int) (fs : String)
    (h : firstSeenOf tbl c' = some fs) :
    firstSeenOf (upsert_option_set_value tbl c label now) c' = some fs := by
  unfold firstSeenOf lookupCodeRow at h ⊢
  cases hfindrow : tbl.find? (fun row => row.code == c') with
  | none => rw [hfindrow] at h; cases h
  | some row =>
    rw [hfindrow] at h
    cases hfind : tbl.find? (fun row => row.code == c) with
    | none =>
      rw [upsert_opt_eq_of_none tbl c label now hfind, find?_append_of_some hfindrow]
      exact h
    | some existing =>
      by_cases hl : (existing.label != label) = true
      · rw [upsert_opt_eq_of_changed tbl c label now existing hfind hl]
        rw [find?_map_pres _ _ _ (upsert_opt_code_pres c c' label), hfindrow]
        show some ((if row.code == c then { row with label := label } else row).first_seen) = some fs
        by_cases hmatch : (row.code == c) = true
        · rw [if_pos hmatch]
          exact h
        · rw [if_neg hmatch]
          exact h
      · rw [upsert_opt_eq_of_unchanged tbl c label now existing hfind (by simpa using hl),
          hfindrow]
        exact h

theorem upsert_opt_present (tbl : List LookupRow) (c : Int) (label : JVal) (now : String) :
    (lookupCodeRow (upsert_option_set_value tbl c label now) c).isSome = true := by
  unfold lookupCodeRow
  cases hfind : tbl.find? (fun row => row.code == c) with
  | none =>
    rw [upsert_opt_eq_of_none tbl c label now hfind, find?_append_of_none hfind]
    simp [List.find?]
  | some existing =>
    by_cases hl : (existing.label != label) = true
    · rw [upsert_opt_eq_of_changed tbl c label now existing hfind hl]
      rw [find?_map_pres _ _ _ (upsert_opt_code_pres c c label), hfind]
      simp
    · rw [upsert_opt_eq_of_unchanged tbl c label now existing hfind (by simpa using hl), hfind]
      simp

theorem upsert_opt_labelOf (tbl : List LookupRow) (c : Int) (label : JVal) (now : String) :
    labelOf (upsert_option_set_value tbl c label now) c = some label := by
  unfold labelOf lookupCodeRow
  cases hfind : tbl.find? (fun row => row.code == c) with
  | none =>
    rw [upsert_opt_eq_of_none tbl c label now hfind, find?_append_of_none hfind]
    simp [List.find?]
  | some existing =>
    have hcode : (existing.code == c) = true := by
      have := List.find?_some hfind
      simpa using this
    by_cases hl : (existing.label != label) = true
    · rw [upsert_opt_eq_of_changed tbl c label now existing hfind hl]
      rw [find?_map_pres _ _ _ (upsert_opt_code_pres c c label), hfind]
      have hc : existing.code = c := by simpa using hcode
      simp [hc]
    · have hlabel : existing.label = label := by
        simpa using hl
      rw [upsert_opt_eq_of_unchanged tbl c label now existing hfind (by simpa using hl), hfind]
      simp [hlabel]

theorem length_filter_code_eq_one (tbl : List LookupRow) (c : Int)
    (hnodup : (tbl.map (·.code)).Nodup)
    (hpres : (lookupCodeRow tbl c).isSome = true) :
    (tbl.filter (fun row => row.code == c)).length = 1 := by
  induction tbl with
  | nil => simp [lookupCodeRow, List.find?] at hpres
  | cons x xs ih =>
    rw [List.map_cons, List.nodup_cons] at hnodup
    by_cases hx : (x.code == c) = true
    · have hxc : x.code = c := by simpa using hx
      have hxs : xs.filter (fun row => row.code == c) = [] := by
        rw [List.filter_eq_nil_iff]
        intro row hrow hrowc
        apply hnodup.1
        rw [hxc]
        exact List.mem_map.mpr ⟨row, hrow, by simpa using hrowc⟩
      simp [List.filter_cons, hx, hxs]
    · have hpres' : (lookupCodeRow xs c).isSome = true := by
        unfold lookupCodeRow at hpres ⊢
        rwa [find?_cons_of_false (fun row => row.code == c) x xs (by simpa using hx)] at hpres
      rw [List.filter_cons]
      simp only [hx, Bool.false_eq_true, if_false]
      exact ih hnodup.2 hpres'

theorem applyLookupOps_cons (tbl : List LookupRow) (op : Int × JVal × String)
    (ops : List (Int × JVal × String)) :
    applyLookupOps tbl (op :: ops) =
      applyLookupOps (upsert_option_set_value tbl op.1 op.2.1 op.2.2) ops := rfl

/-- C8.  Starting from a lookup table with (primary-key) distinct codes,
any sequence of `upsert_option_set_value` calls keeps the codes distinct,
leaves every recorded `first_seen` timestamp untouched, ends with exactly
one row for each upserted code, and a single upsert always leaves the
upserted code's label equal to the given label (overwrite in place). -/
theorem optionset_lookup_monotonic (init : List LookupRow)
    (ops : List (Int × JVal × String))
    (hnodup : (init.map (·.code)).Nodup) :
    ((applyLookupOps init ops).map (·.code)).Nodup
    ∧ (∀ c fs, firstSeenOf init c = some fs →
        firstSeenOf (applyLookupOps init ops) c = some fs)
    ∧ (∀ op ∈ ops,
        ((applyLookupOps init ops).filter (fun row => row.code == op.1)).length = 1)
    ∧ (∀ tbl c l now, labelOf (upsert_option_set_value tbl c l now) c = some l) := by
  induction ops generalizing init with
  | nil =>
    refine ⟨hnodup, fun c fs h => h, by simp, fun tbl c l now => upsert_opt_labelOf tbl c l now⟩
  | cons op ops ih =>
    have hnodup1 : ((upsert_option_set_value init op.1 op.2.1 op.2.2).map (·.code)).Nodup :=
      upsert_opt_nodup init op.1 op.2.1 op.2.2 hnodup
    obtain ⟨ihnodup, ihfs, ihone, ihlabel⟩ :=
      ih (upsert_option_set_value init op.1 op.2.1 op.2.2) hnodup1
    have hpresfinal : ∀ c, (lookupCodeRow (upsert_option_set_value init op.1 op.2.1 op.2.2) c).isSome = true →
        (lookupCodeRow (applyLookupOps (upsert_option_set_value init op.1 op.2.1 op.2.2) ops) c).isSome = true := by
      intro c hc
      rcases Option.isSome_iff_exists.mp hc with ⟨row, hrow⟩
      have hfs : firstSeenOf (upsert_option_set_value init op.1 op.2.1 op.2.2) c = some row.first_seen := by
        unfold firstSeenOf
        rw [hrow]
        rfl
      have := ihfs c row.first_seen hfs
      unfold firstSeenOf at this
      cases hlook : lookupCodeRow (applyLookupOps (upsert_option_set_value init op.1 op.2.1 op.2.2) ops) c with
      | none => rw [hlook] at this; cases this
      | some _ => simp
    refine ⟨by rw [applyLookupOps_cons]; exact ihnodup, ?_, ?_, ihlabel⟩
    · intro c fs h
      rw [applyLookupOps_cons]
      exact ihfs c fs (upsert_opt_firstSeen_pres init op.1 op.2.1 op.2.2 c fs h)
    · intro op' hop'
      rcases List.mem_cons.mp hop' with hh | hh
      · rw [applyLookupOps_cons]
        apply length_filter_code_eq_one _ _ ihnodup
        apply hpresfinal
        rw [hh]
        exact upsert_opt_present init op.1 op.2.1 op.2.2
      · rw [applyLookupOps_cons]
        exact ihone op' hh

/-- Witness for C8: a concrete sequence that inserts a code, overwrites its
label, and re-inserts — the code stays unique and `first_seen` is kept. -/
theorem optionset_lookup_monotonic_witness :
    ((applyLookupOps []
        [(1, JVal.s "Active", "d0"), (1, JVal.s "Enabled", "d1"), (2, JVal.s "Off", "d2")]).map
      (·.code)).Nodup := by
  have := (optionset_lookup_monotonic []
      [(1, JVal.s "Active", "d0"), (1, JVal.s "Enabled", "d1"), (2, JVal.s "Off", "d2")]
      (by simp)).1
  exact this

/-! ### Type mapping and schema comparison (`type_mapping.py`,
`schema_comparer.py`, `validation/validator.py`) -/

/-- `ColumnMetadata` from `type_mapping.py`. -/
structure ColumnMetadata where
  name : String
  db_type : String
  edm_type : Option String
  nullable : Bool
  max_length : Option Nat
deriving DecidableEq, Repr

/-- `ColumnMetadata.__eq__`: case-insensitive on `name`, case-insensitive
on the raw `db_type` string (via `.upper()`), and exact on `nullable` and
`max_length`. -/
def columnMetadataEq (a b : ColumnMetadata) : Bool :=
  pyLower a.name == pyLower b.name
    && pyUpper a.db_type == pyUpper b.db_type
    && a.nullable == b.nullable
    && a.max_length == b.max_length

/-- The tuple `ColumnMetadata.__hash__` hashes; two values with equal keys
have equal Python hashes. -/
def columnMetadataHashKey (c : ColumnMetadata) : String × String × Bool × Option Nat :=
  (pyLower c.name, pyUpper c.db_type, c.nullable, c.max_length)

/-- `ForeignKeyMetadata` from `type_mapping.py` (constraint name omitted
from comparisons as in the source). -/
structure ForeignKeyMetadata where
  column : String
  referenced_table : String
  referenced_column : String
deriving DecidableEq, Repr

/-- `IndexMetadata` from `type_mapping.py`. -/
structure IndexMetadata where
  name : String
  columns : List String
  is_unique : Bool
deriving DecidableEq, Repr

/-- `TableSchema` from `type_mapping.py`. -/
structure TableSchema where
  entity_name : String
  columns : List ColumnMetadata
  primary_key : Option String
  foreign_keys : List ForeignKeyMetadata
  indexes : List IndexMetadata
deriving DecidableEq, Repr

/-- `SQLITE_TYPE_ALIASES` (canonical family, alias set). -/
def SQLITE_TYPE_ALIASES : List (String × List String) :=
  [("TEXT", ["VARCHAR", "CHAR", "NVARCHAR", "NCHAR", "CLOB"]),
   ("INTEGER", ["INT", "TINYINT", "SMALLINT", "MEDIUMINT", "BIGINT"]),
   ("REAL", ["DOUBLE", "FLOAT", "NUMERIC", "DECIMAL"]),
   ("BLOB", ["BLOB", "BINARY", "VARBINARY"])]

/-- `POSTGRESQL_TYPE_ALIASES`. -/
def POSTGRESQL_TYPE_ALIASES : List (String × List String) :=
  [("TEXT", ["CHARACTER VARYING", "CHAR", "CHARACTER", "VARCHAR"]),
   ("INTEGER", ["INT", "INT4"]),
   ("SMALLINT", ["INT2"]),
   ("BIGINT", ["INT8"]),
   ("DOUBLE PRECISION", ["FLOAT8", "DOUBLE PRECISION"]),
   ("REAL", ["FLOAT4"]),
   ("BOOLEAN", ["BOOL"]),
   ("TIMESTAMP WITH TIME ZONE", ["TIMESTAMPTZ"])]

/-- `TYPE_ALIASES[target_db.lower()]`, `none` for unknown targets. -/
def typeAliasesFor (targetDb : String) : Option (List (String × List String)) :=
  if pyLower targetDb == "sqlite" then some SQLITE_TYPE_ALIASES
  else if pyLower targetDb == "postgresql" || pyLower targetDb == "postgres" then
    some POSTGRESQL_TYPE_ALIASES
  else none

/-- `normalize_db_type`: upper-case, strip, drop a `(...)` length qualifier,
then map family aliases to the canonical family name; unknown targets and
unknown types pass through cleaned. -/
def normalize_db_type (dbType : String) (targetDb : String) : String :=
  let clean0 := pyStrip (pyUpper dbType)
  let clean :=
    if clean0.data.contains '(' then pyStrip ⟨clean0.data.takeWhile (· != '(')⟩
    else clean0
  match typeAliasesFor targetDb with
  | none => clean
  | some aliases =>
      match aliases.find? (fun ca => ca.2.contains clean) with
      | some ca => ca.1
      | none => clean

/-! ### Claim C9: `ColumnMetadata` equality -/

/-- Counterexample for C9 as stated: `INT` and `INTEGER` are in the same
sqlite storage-type family, and the two columns agree case-insensitively on
name, yet `ColumnMetadata.__eq__` compares the raw upper-cased type strings
and calls them unequal. -/
theorem columnMetadataEq_family_counterexample :
    normalize_db_type "INT" "sqlite" = normalize_db_type "INTEGER" "sqlite"
    ∧ pyLower "a" = pyLower "a"
    ∧ columnMetadataEq ⟨"a", "INT", none, true, none⟩ ⟨"a", "INTEGER", none, true, none⟩
        = false := by
  refine ⟨?_, rfl, ?_⟩ <;> decide

/-- C9 (amended).  `ColumnMetadata.__eq__` holds iff the names agree
case-insensitively, the raw storage-type strings agree case-insensitively
(family aliases such as `INT` vs `INTEGER` do **not** compare equal —
family normalization is applied only by the schema comparer), and
`nullable` and `max_length` agree exactly; and equality implies equality of
the tuples fed to `__hash__`. -/
theorem columnMetadataEq_spec (a b : ColumnMetadata) :
    (columnMetadataEq a b = true ↔
      (pyLower a.name = pyLower b.name ∧ pyUpper a.db_type = pyUpper b.db_type ∧
       a.nullable = b.nullable ∧ a.max_length = b.max_length))
    ∧ (columnMetadataEq a b = true → columnMetadataHashKey a = columnMetadataHashKey b) := by
  constructor
  · unfold columnMetadataEq
    simp [and_assoc]
  · intro h
    unfold columnMetadataEq at h
    simp only [Bool.and_eq_true, beq_iff_eq] at h
    unfold columnMetadataHashKey
    rw [h.1.1.1, h.1.1.2, h.1.2, h.2]

/-- Witness for C9: two concrete columns differing only in case are equal
and share the hash tuple. -/
theorem columnMetadataEq_spec_witness :
    columnMetadataHashKey ⟨"Name", "int", none, true, none⟩ =
      columnMetadataHashKey ⟨"NAME", "INT", none, true, none⟩ :=
  (columnMetadataEq_spec ⟨"Name", "int", none, true, none⟩
      ⟨"NAME", "INT", none, true, none⟩).2 (by decide)

/-! ### Claim C7: `pk_mismatch` and the surrogate-PK exception -/

/-- `SYSTEM_COLUMNS` from `validation/validator.py`. -/
def SYSTEM_COLUMNS : List String :=
  ["row_id", "json_response", "sync_time", "valid_from", "valid_to"]

/-- Python truthiness of an `Optional[str]`. -/
def optTruthyStr : Option String → Bool
  | some s => !s.isEmpty
  | none => false

/-- The `elif singular_entity_name:` fallback inside
`_filter_system_columns`. -/
def singularIdFallback (singular : Option String) (filteredCols : List ColumnMetadata) :
    Option String :=
  match singular with
  | some s =>
      if !s.isEmpty then
        if filteredCols.any (fun col => col.name == s ++ "id") then some (s ++ "id") else none
      else none
  | none => none

/-- `_filter_system_columns`: drop system columns; if the observed PK is a
system column (the SCD2 surrogate), use the expected business key when it
exists as a remaining column, else fall back to `<singular>id`, else no PK. -/
def filterSystemColumns (schema : TableSchema) (expectedPk : Option String)
    (singular : Option String) : TableSchema :=
  let filtered := schema.columns.filter (fun col => !(SYSTEM_COLUMNS.contains col.name))
  let filteredPk :=
    match schema.primary_key with
    | some pk =>
        if SYSTEM_COLUMNS.contains pk then
          match expectedPk with
          | some epk =>
              if !epk.isEmpty && filtered.any (fun col => col.name == epk) then some epk
              else singularIdFallback singular filtered
          | none => singularIdFallback singular filtered
        else some pk
    | none => none
  ⟨schema.entity_name, filtered, filteredPk, schema.foreign_keys, []⟩

/-- `_adjust_phantom_pk`: when the projected PK does not occur among the
projected columns and the filtered observed PK is exactly `<singular>id`,
project onto `<singular>id`. -/
def adjustPhantomPk (dv : TableSchema) (dbFiltered : TableSchema)
    (singular : String) : TableSchema :=
  match dv.primary_key with
  | some pk =>
      if !pk.isEmpty && !(dv.columns.any (fun col => col.name == pk)) then
        if dbFiltered.primary_key == some (singular ++ "id") then
          { dv with primary_key := some (singular ++ "id") }
        else dv
      else dv
  | none => dv

/-- A schema difference (`SchemaDifference`); details restricted to the PK
fields the comparison records. -/
structure SchemaDifference where
  entity : String
  issue_type : String
  severity : String
  description : String
  details : List (String × Option String)
deriving DecidableEq, Repr

/-- Python `pk.lower() if pk else None` on an `Optional[str]`. -/
def optLowerTruthy : Option String → Option String
  | some s => if s.isEmpty then none else some (pyLower s)
  | none => none

/-- `SchemaComparer._compare_primary_keys`. -/
def comparePrimaryKeys (entityName : String) (dv db : TableSchema) :
    List SchemaDifference :=
  if optLowerTruthy dv.primary_key != optLowerTruthy db.primary_key then
    [⟨entityName, "pk_mismatch", "error", "Primary key mismatch",
      [("expected_pk", dv.primary_key), ("actual_pk", db.primary_key)]⟩]
  else []

/-- The primary-key slice of `_validate_entity_schema`: filter the observed
schema's system columns (resolving a surrogate PK), adjust a phantom
projected PK, then compare. -/
def pkValidationDiffs (dv db : TableSchema) (singular : String) :
    List SchemaDifference :=
  let dbF := filterSystemColumns db dv.primary_key (some singular)
  let dvA := adjustPhantomPk dv dbF singular
  comparePrimaryKeys singular dvA dbF

/-- Projected `systemuser` schema whose metadata PK `ownerid` is not one of
its columns (the Dataverse phantom-PK quirk). -/
def dvSystemuser : TableSchema :=
  ⟨"systemuser",
   [⟨"systemuserid", "TEXT", none, true, none⟩, ⟨"fullname", "TEXT", none, true, none⟩],
   some "ownerid", [], []⟩

/-- Observed `systemusers` table: SCD2 surrogate PK `row_id` plus the
system columns. -/
def dbSystemusers : TableSchema :=
  ⟨"systemusers",
   [⟨"systemuserid", "TEXT", none, true, none⟩, ⟨"fullname", "TEXT", none, true, none⟩,
    ⟨"row_id", "INTEGER", none, false, none⟩, ⟨"json_response", "TEXT", none, false, none⟩,
    ⟨"sync_time", "TEXT", none, true, none⟩, ⟨"valid_from", "TEXT", none, true, none⟩,
    ⟨"valid_to", "TEXT", none, true, none⟩],
   some "row_id", [], []⟩

/-- Counterexample for C7 as stated: the projected PK (`ownerid`) and the
observed PK (`row_id`) differ case-insensitively, and the claim's sole
exception does not apply — `ownerid` is **not** a regular column of the
observed table — yet no `pk_mismatch` is reported, because the phantom-PK
fallback resolves both sides to `systemuserid`. -/
theorem pk_mismatch_one_exception_counterexample :
    pkValidationDiffs dvSystemuser dbSystemusers "systemuser" = []
    ∧ optLowerTruthy dvSystemuser.primary_key ≠ optLowerTruthy dbSystemusers.primary_key
    ∧ SYSTEM_COLUMNS.contains "row_id" = true
    ∧ (dbSystemusers.columns.filter
        (fun col => !(SYSTEM_COLUMNS.contains col.name))).all
          (fun col => col.name != "ownerid") = true := by
  refine ⟨?_, ?_, ?_, ?_⟩ <;> decide

/-- C7 (amended).  The pipeline reports `pk_mismatch` (severity `error`)
exactly when the *effective* primary keys differ case-insensitively: the
observed side replaces a surrogate (system-column) PK by the projected PK
when that exists as a regular observed column, else by `<singular>id` when
that is a regular observed column, else by none; the projected side is
replaced by `<singular>id` when the projected PK is not among the projected
columns and the effective observed PK is exactly `<singular>id`. -/
theorem pkValidation_mismatch_iff (dv db : TableSchema) (singular : String) :
    ((∃ d ∈ pkValidationDiffs dv db singular,
        d.issue_type = "pk_mismatch" ∧ d.severity = "error") ↔
      optLowerTruthy
          (adjustPhantomPk dv (filterSystemColumns db dv.primary_key (some singular))
            singular).primary_key ≠
        optLowerTruthy (filterSystemColumns db dv.primary_key (some singular)).primary_key) := by
  unfold pkValidationDiffs comparePrimaryKeys
  by_cases h : optLowerTruthy
      (adjustPhantomPk dv (filterSystemColumns db dv.primary_key (some singular))
        singular).primary_key =
      optLowerTruthy (filterSystemColumns db dv.primary_key (some singular)).primary_key
  · have hb : (optLowerTruthy
        (adjustPhantomPk dv (filterSystemColumns db dv.primary_key (some singular))
          singular).primary_key !=
        optLowerTruthy (filterSystemColumns db dv.primary_key (some singular)).primary_key)
        = false := by
      simp [h]
    simp [hb, h]
  · have hb : (optLowerTruthy
        (adjustPhantomPk dv (filterSystemColumns db dv.primary_key (some singular))
          singular).primary_key !=
        optLowerTruthy (filterSystemColumns db dv.primary_key (some singular)).primary_key)
        = true := by
      simp [h]
    simp [hb, h]

/-! ### Dataverse API client (`dataverse_client.py`) -/

/-- One page of an OData JSON response as the client reads it: the `value`
array (default `[]`) and the optional `@odata.nextLink` cursor. -/
structure Page where
  value : List ObjData
  nextLink : Option String
deriving DecidableEq, Repr

/-- One HTTP interaction as `fetch_with_retry` observes it: a raw response
(status, optional `Retry-After` header, body text, parsed JSON) or a
transport error (`aiohttp.ClientError` / `asyncio.TimeoutError`). -/
inductive HttpResult where
  | resp (status : Nat) (retryAfter : Option String) (body : String) (json : Page)
  | transport (msg : String)
deriving DecidableEq, Repr

/-- `self.retry_delays = [1, 2, 4, 8, 16]`. -/
def retryDelays : List Nat := [1, 2, 4, 8, 16]

/-- Python `int(s)` (optional sign and surrounding whitespace, decimal
digits); `none` models `ValueError`. -/
def pyIntOfStr (s : String) : Option Int :=
  let digitsVal : List Char → Option Nat := fun ds =>
    if ds.isEmpty then none
    else if ds.all Char.isDigit then
      some (ds.foldl (fun acc c => acc * 10 + (c.toNat - 48)) 0)
    else none
  match (pyStrip s).data with
  | '+' :: ds => (digitsVal ds).map Int.ofNat
  | '-' :: ds => (digitsVal ds).map (fun n => -(n : Int))
  | ds => (digitsVal ds).map Int.ofNat

/-- The sleep chosen on a 429: `int(Retry-After)` when the header parses,
otherwise the clamped backoff step
`retry_delays[min(attempt, len(retry_delays) - 1)]`. -/
def wait429 (retryAfter : Option String) (attempt : Nat) : Int :=
  let fallback : Int := retryDelays.getD (min attempt (retryDelays.length - 1)) 0
  match retryAfter with
  | some s =>
      match pyIntOfStr s with
      | some n => n
      | none => fallback
  | none => fallback

/-- `DataverseClient.fetch_with_retry`.  The oracle gives the outcome of
the request made at each attempt number; the result pairs the sequence of
sleeps performed with the final outcome (`Except.error` models the raised
`RuntimeError`). -/
def fetchWithRetry (oracle : Nat → HttpResult) (attempt : Nat) :
    List Int × Except String Page :=
  match oracle attempt with
  | .transport msg =>
      if h : attempt < retryDelays.length then
        let rest := fetchWithRetry oracle (attempt + 1)
        ((retryDelays.getD attempt 0 : Int) :: rest.1, rest.2)
      else
        ([], .error ("Network error after " ++ Nat.repr (attempt + 1) ++ " attempts: " ++ msg))
  | .resp status retryAfter body json =>
      if status == 429 then
        if h : attempt < retryDelays.length then
          let rest := fetchWithRetry oracle (attempt + 1)
          (wait429 retryAfter attempt :: rest.1, rest.2)
        else
          ([], .error ("Rate limited after " ++ Nat.repr (attempt + 1) ++ " attempts"))
      else if status == 401 then
        ([], .error "Token expired - need to re-authenticate")
      else if 500 ≤ status then
        if h : attempt < retryDelays.length then
          let rest := fetchWithRetry oracle (attempt + 1)
          ((retryDelays.getD attempt 0 : Int) :: rest.1, rest.2)
        else
          ([], .error ("Server error after " ++ Nat.repr (attempt + 1) ++ " attempts: "
            ++ Nat.repr status ++ " - " ++ body))
      else if status != 200 then
        ([], .error ("API request failed: " ++ Nat.repr status ++ " - " ++ body))
      else ([], .ok json)
termination_by retryDelays.length - attempt
decreasing_by
  all_goals simp [retryDelays] at h ⊢
  all_goals omega

/-! ### Claim C6: the retry policy -/

/-- C6.  One step of `fetch_with_retry` for every response class: 429
sleeps the integer `Retry-After` when present (else the current backoff
step) and retries within the five-step budget, failing beyond it; 5xx
backs off and retries within the same budget; transport errors back off
and retry; 401 raises immediately with no sleep; any other non-2xx status
fails immediately with the status and body in the error. -/
theorem fetch_with_retry_policy (oracle : Nat → HttpResult) (attempt status : Nat)
    (ra : Option String) (body : String) (json : Page) (msg : String) :
    ((oracle attempt = .resp 429 ra body json → attempt < retryDelays.length →
       fetchWithRetry oracle attempt =
         (wait429 ra attempt :: (fetchWithRetry oracle (attempt + 1)).1,
          (fetchWithRetry oracle (attempt + 1)).2))
    ∧ (oracle attempt = .resp 429 ra body json → ¬ attempt < retryDelays.length →
       fetchWithRetry oracle attempt =
         ([], .error ("Rate limited after " ++ Nat.repr (attempt + 1) ++ " attempts")))
    ∧ (∀ s n, pyIntOfStr s = some n → wait429 (some s) attempt = n)
    ∧ (attempt < retryDelays.length → wait429 none attempt = (retryDelays.getD attempt 0 : Int))
    ∧ (oracle attempt = .resp status ra body json → 500 ≤ status →
        attempt < retryDelays.length →
       fetchWithRetry oracle attempt =
         ((retryDelays.getD attempt 0 : Int) :: (fetchWithRetry oracle (attempt + 1)).1,
          (fetchWithRetry oracle (attempt + 1)).2))
    ∧ (oracle attempt = .resp status ra body json → 500 ≤ status →
        ¬ attempt < retryDelays.length →
       fetchWithRetry oracle attempt =
         ([], .error ("Server error after " ++ Nat.repr (attempt + 1) ++ " attempts: "
            ++ Nat.repr status ++ " - " ++ body)))
    ∧ (oracle attempt = .transport msg → attempt < retryDelays.length →
       fetchWithRetry oracle attempt =
         ((retryDelays.getD attempt 0 : Int) :: (fetchWithRetry oracle (attempt + 1)).1,
          (fetchWithRetry oracle (attempt + 1)).2))
    ∧ (oracle attempt = .transport msg → ¬ attempt < retryDelays.length →
       fetchWithRetry oracle attempt =
         ([], .error ("Network error after " ++ Nat.repr (attempt + 1) ++ " attempts: " ++ msg)))
    ∧ (oracle attempt = .resp 401 ra body json →
       fetchWithRetry oracle attempt = ([], .error "Token expired - need to re-authenticate"))
    ∧ (oracle attempt = .resp status ra body json →
        ¬ (200 ≤ status ∧ status < 300) → status ≠ 429 → status ≠ 401 → status < 500 →
       fetchWithRetry oracle attempt =
         ([], .error ("API request failed: " ++ Nat.repr status ++ " - " ++ body)))) := by
  refine ⟨?_, ?_, ?_, ?_, ?_, ?_, ?_, ?_, ?_, ?_⟩
  · intro horacle hlt
    rw [fetchWithRetry, horacle]
    simp [hlt]
  · intro horacle hlt
    rw [fetchWithRetry, horacle]
    simp [hlt]
  · intro s n hparse
    simp [wait429, hparse]
  · intro hlt
    have : min attempt (retryDelays.length - 1) = attempt := by
      simp [retryDelays] at hlt ⊢
      omega
    simp [wait429, this]
  · intro horacle h5 hlt
    have h429 : (status == 429) = false := by simp; omega
    have h401 : (status == 401) = false := by simp; omega
    rw [fetchWithRetry, horacle]
    simp [h429, h401, h5, hlt]
  · intro horacle h5 hlt
    have h429 : (status == 429) = false := by simp; omega
    have h401 : (status == 401) = false := by simp; omega
    rw [fetchWithRetry, horacle]
    simp [h429, h401, h5, hlt]
  · intro horacle hlt
    rw [fetchWithRetry, horacle]
    simp [hlt]
  · intro horacle hlt
    rw [fetchWithRetry, horacle]
    simp [hlt]
  · intro horacle
    rw [fetchWithRetry, horacle]
    simp
  · intro horacle hn2xx h429 h401 h5
    have hb429 : (status == 429) = false := by simpa using h429
    have hb401 : (status == 401) = false := by simpa using h401
    have hb5 : ¬ 500 ≤ status := by omega
    have hb200 : (status != 200) = true := by
      simp
      intro he
      exact hn2xx (by omega)
    rw [fetchWithRetry, horacle]
    simp [hb429, hb401, hb5, hb200]

/-- Witness for C6: a 401 response is surfaced immediately, with no sleep. -/
theorem fetch_with_retry_policy_witness :
    fetchWithRetry (fun _ => HttpResult.resp 401 none "" ⟨[], none⟩) 0 =
      ([], Except.error "Token expired - need to re-authenticate") :=
  ((fetch_with_retry_policy (fun _ => HttpResult.resp 401 none "" ⟨[], none⟩)
      0 401 none "" ⟨[], none⟩ "").2.2.2.2.2.2.2.2.1) rfl

/-! ### Pagination (`fetch_all_pages`) -/

/-- The `while url:` loop of `_fetch_pages_with_orderby` after the first
page: `follow` resolves a `nextLink` URL to the next response; `fuel`
bounds the model's recursion.  Returns the number of requests made and the
accumulated records. -/
def iterPages (follow : String → Except String Page) :
    Nat → String → List ObjData → Nat × Except String (List ObjData)
  | 0, _, acc => (0, .ok acc)
  | fuel + 1, url, acc =>
      match follow url with
      | .error e => (1, .error e)
      | .ok p =>
          match p.nextLink with
          | none => (1, .ok (acc ++ p.value))
          | some u =>
              let r := iterPages follow fuel u (acc ++ p.value)
              (r.1 + 1, r.2)

/-- `_fetch_pages_with_orderby`: issue the initial request, then follow
`@odata.nextLink` cursors until exhausted. -/
def fetchPagesWithOrderby (firstResp : Except String Page)
    (follow : String → Except String Page) (fuel : Nat) :
    Nat × Except String (List ObjData) :=
  match firstResp with
  | .error e => (1, .error e)
  | .ok p =>
      match p.nextLink with
      | none => (1, .ok p.value)
      | some u =>
          let r := iterPages follow fuel u p.value
          (r.1 + 1, r.2)

/-- `_fetch_pages_without_orderby`: a single request; the `Bool` records
whether the truncation warning was printed (a `nextLink` was present on
the lone page). -/
def fetchPagesWithoutOrderby (firstResp : Except String Page) :
    Nat × Except String (List ObjData × Bool) :=
  (1, firstResp.map (fun p => (p.value, p.nextLink.isSome)))

/-- The `except RuntimeError` filter in `fetch_all_pages`: a 400 error
whose message mentions `orderby`, `attribute` or `principal`. -/
def isOrderbyFallbackError (e : String) : Bool :=
  strContainsSub (pyLower e) "400"
    && (strContainsSub (pyLower e) "orderby" || strContainsSub (pyLower e) "attribute"
        || strContainsSub (pyLower e) "principal")

/-- `DataverseClient.fetch_all_pages`.  `firstWith` is the response to the
initial request with `$orderby`, `firstWithout` the response to the initial
request without it; the result pairs the request count with the records and
the truncation-warning flag. -/
def fetchAllPages (orderby : Option String) (firstWith firstWithout : Except String Page)
    (follow : String → Except String Page) (fuel : Nat) :
    Nat × Except String (List ObjData × Bool) :=
  match orderby with
  | some _ =>
      let r := fetchPagesWithOrderby firstWith follow fuel
      match r.2 with
      | .ok recs => (r.1, .ok (recs, false))
      | .error e =>
          if isOrderbyFallbackError e then
            let r2 := fetchPagesWithoutOrderby firstWithout
            (r.1 + r2.1, r2.2)
          else (r.1, .error e)
  | none => fetchPagesWithoutOrderby firstWithout

/-! ### Claim C10: no-orderby fetches never paginate -/

/-- C10.  With `orderby = None`, `fetch_all_pages` issues exactly one
request, never consults the `nextLink` follower (the result is the same for
every follower and every fuel), returns exactly the single page's records,
and flags the truncation warning exactly when that page carried a
`nextLink`. -/
theorem fetch_all_pages_no_orderby (firstWith firstWithout : Except String Page)
    (follow follow' : String → Except String Page) (fuel fuel' : Nat) :
    fetchAllPages none firstWith firstWithout follow fuel =
      (1, firstWithout.map (fun p => (p.value, p.nextLink.isSome)))
    ∧ fetchAllPages none firstWith firstWithout follow fuel =
        fetchAllPages none firstWith firstWithout follow' fuel' := by
  exact ⟨rfl, rfl⟩

/-! ### Relationship graph and filtered ID extraction
(`relationship_graph.py`, `filtered_sync.py`) -/

/-- `EntityRelationships`: both directions hold
`(table, fk_column, referenced_column)` **triples**. -/
structure EntityRelationships where
  references_to : List (String × String × String)
  referenced_by : List (String × String × String)
deriving DecidableEq, Repr

/-- `RelationshipGraph.relationships` as an association list. -/
abbrev RelationshipGraph := List (String × EntityRelationships)

/-- `RelationshipGraph.get_entities_that_reference`. -/
def get_entities_that_reference (g : RelationshipGraph) (entityApiName : String) :
    List (String × String × String) :=
  match (g.find? (fun kv => kv.1 == entityApiName)).map (·.2) with
  | some rels => rels.referenced_by
  | none => []

/-- First-occurrence deduplication (the Python `set` of distinct values). -/
def dedupJVals (l : List JVal) : List JVal :=
  l.foldl (fun acc v => if acc.contains v then acc else acc ++ [v]) []

/-- `DatabaseManager.query_distinct_values`: distinct non-null values of a
column, empty when the table does not exist. -/
def query_distinct_values (db : List (String × List ObjData)) (table col : String) :
    List JVal :=
  match (db.find? (fun kv => kv.1 == table)).map (·.2) with
  | none => []
  | some rows =>
      dedupJVals (rows.filterMap (fun r =>
        match lookupKey r col with
        | some v => if v == JVal.null then none else some v
        | none => none))

/-- `FilteredSyncManager.MAX_ITERATIONS`. -/
def MAX_ITERATIONS : Nat := 10

/-- The inner `for table_name, fk_column in references:` loop of
`extract_filtered_ids`.  The graph supplies three-element tuples, so the
two-name unpacking raises `ValueError` on the first element; with no
references the loop body never runs. -/
def unpackReferencesLoop : List (String × String × String) → Except String Unit
  | [] => .ok ()
  | _ :: _ => .error "ValueError: too many values to unpack (expected 2)"

/-- `FilteredSyncManager.extract_filtered_ids`.  `result` starts as an
empty set per filtered entity.  In each `while iteration < MAX_ITERATIONS`
pass the per-entity loop immediately raises `ValueError` on any non-empty
reference list (see `unpackReferencesLoop`); when every reference list is
empty no query runs, `changed` stays `False`, and the first pass breaks
with the empty sets.  `db` is only ever read by the unreachable loop body. -/
def extract_filtered_ids (graph : RelationshipGraph)
    (_db : List (String × List ObjData)) (filteredEntities : List String) :
    Except String (List (String × List JVal)) :=
  let result := filteredEntities.map (fun e => (e, ([] : List JVal)))
  match filteredEntities.foldlM
      (fun _ e => unpackReferencesLoop (get_entities_that_reference graph e)) () with
  | .error e => .error e
  | .ok () => .ok result

/-- The graph of scenario S4: `vin_candidates` references the filtered
entity `accounts`. -/
def c5Graph : RelationshipGraph :=
  [("accounts", ⟨[], [("vin_candidates", "_parentaccountid_value", "accountid")]⟩),
   ("vin_candidates", ⟨[("accounts", "_parentaccountid_value", "accountid")], []⟩)]

/-- One already-synced `vin_candidates` row carrying an account FK. -/
def c5Db : List (String × List ObjData) :=
  [("vin_candidates",
    [[("vin_candidateid", JVal.s "c1"), ("_parentaccountid_value", JVal.s "a1")]])]

/-! ### Claim C5: transitive-closure ID extraction -/

/-- C5.  On a graph in which some filtered entity has a non-empty
`referenced_by` list (here: `accounts`, referenced by `vin_candidates`),
`extract_filtered_ids` raises
`ValueError: too many values to unpack (expected 2)` at
`for table_name, fk_column in references:` instead of returning the
distinct non-null FK values (`{a1}` here, as the second conjunct shows the
database holds). -/
theorem extract_filtered_ids_crashes :
    extract_filtered_ids c5Graph c5Db ["accounts"] =
      .error "ValueError: too many values to unpack (expected 2)"
    ∧ query_distinct_values c5Db "vin_candidates" "_parentaccountid_value" = [JVal.s "a1"]
    ∧ get_entities_that_reference c5Graph "accounts" =
        [("vin_candidates", "_parentaccountid_value", "accountid")] := by
  refine ⟨rfl, by decide, rfl⟩

/-! ### Option-set detection (`optionset_detector.py`) and batch upsert
(`scd2_upsert.py`) -/

/-- The formatted-value annotation suffix. -/
def fvSuffix : String := "@OData.Community.Display.V1.FormattedValue"

def replaceAux (p : Char) (ps rep : List Char) : List Char → List Char
  | [] => []
  | c :: rest =>
      if (p :: ps).isPrefixOf (c :: rest) then rep ++ replaceAux p ps rep (rest.drop ps.length)
      else c :: replaceAux p ps rep rest
termination_by l => l.length
decreasing_by
  all_goals simp [List.length_drop]
  all_goals omega

/-- Python `s.replace(pat, rep)` (all non-overlapping occurrences, left to
right; the patterns used here are never empty). -/
def pyReplace (s pat rep : String) : String :=
  match pat.data with
  | [] => s
  | p :: ps => ⟨replaceAux p ps rep.data s.data⟩

def splitOnChar (c : Char) : List Char → List (List Char)
  | [] => [[]]
  | x :: xs =>
      let r := splitOnChar c xs
      if x == c then [] :: r
      else
        match r with
        | [] => [[x]]
        | h :: t => (x :: h) :: t

/-- Python `s.split(sep)` for a one-character separator (the detector splits
on `","` and `";"`). -/
def pySplit (s : String) (c : Char) : List String :=
  (splitOnChar c s.data).map (fun l => ⟨l⟩)

/-- Python `int(v)` on a JSON value: ints pass through, strings parse,
`None` is a `TypeError`. -/
def pyIntOfJVal : JVal → Option Int
  | .i n => some n
  | .s t => pyIntOfStr t
  | .null => none

/-- `OptionSetDetector._is_multi_select`: the formatted value contains a
semicolon, or the raw value is a string containing a comma. -/
def isMultiSelect (raw fmt : JVal) : Bool :=
  (match fmt with | .s t => t.data.contains ';' | _ => false)
    || (match raw with | .s t => t.data.contains ',' | _ => false)

/-- `[int(c.strip()) for c in raw.split(",") if c.strip()]`; `none` is the
`ValueError` the comprehension may raise. -/
def parseCodes (t : String) : Option (List Int) :=
  (((pySplit t ',').map pyStrip).filter (fun p => !p.isEmpty)).mapM pyIntOfStr

/-- Python dict assignment `d[k] = v`: overwrite in place, else append. -/
def dictInsertJ (l : List (Int × JVal)) (k : Int) (v : JVal) : List (Int × JVal) :=
  if l.any (fun kv => kv.1 == k) then
    l.map (fun kv => if kv.1 == k then (k, v) else kv)
  else l ++ [(k, v)]

/-- `OptionSetDetector._extract_codes_and_labels`.  `some []` is the dict
left empty after a caught `ValueError`/`TypeError`; `none` is the
**uncaught** `AttributeError` from `formatted_value.split(";")` when the
formatted value is not a string. -/
def extractCodesAndLabels (raw fmt : JVal) (multi : Bool) : Option (List (Int × JVal)) :=
  if multi then
    let codesTry : Option (List Int) :=
      match raw with
      | .s t => parseCodes t
      | .i n => some [n]
      | .null => none
    match codesTry with
    | none => some []
    | some codes =>
        match fmt with
        | .s ft =>
            let labels := (((pySplit ft ';').map pyStrip).filter (fun l => !l.isEmpty)).map JVal.s
            some ((codes.zip labels).foldl (fun acc kv => dictInsertJ acc kv.1 kv.2) [])
        | _ => none
  else
    match pyIntOfJVal raw with
    | some n => some [(n, fmt)]
    | none => some []

/-- `d.get(k)`: a missing key reads as `None`. -/
def optToNull : Option JVal → JVal
  | some v => v
  | none => .null

/-- Dict assignment for the detector's result dict. -/
def dictInsertDet (l : List (String × DetectedOptionSet)) (k : String)
    (v : DetectedOptionSet) : List (String × DetectedOptionSet) :=
  if l.any (fun kv => kv.1 == k) then
    l.map (fun kv => if kv.1 == k then (k, v) else kv)
  else l ++ [(k, v)]

/-- `OptionSetDetector.detect_from_record`: scan the record's keys for
formatted-value annotations; `none` propagates the detector's uncaught
exception. -/
def detectFromRecord (rec : ObjData) : Option (List (String × DetectedOptionSet)) :=
  rec.foldlM
    (fun detected kv =>
      let key := kv.1
      if strEndsWith key fvSuffix then
        let fieldName := pyReplace key fvSuffix ""
        let rawValue := optToNull (lookupKey rec fieldName)
        let fmtValue := optToNull (lookupKey rec key)
        if rawValue == JVal.null || fmtValue == JVal.null then some detected
        else
          let multi := isMultiSelect rawValue fmtValue
          match extractCodesAndLabels rawValue fmtValue multi with
          | none => none
          | some cl =>
              if cl.isEmpty then some detected
              else some (dictInsertDet detected fieldName ⟨fieldName, multi, cl⟩)
      else some detected)
    []

/-- `field_name in detected_option_sets and
detected_option_sets[field_name].is_multi_select`. -/
def isMultiSelectField (detected : List (String × DetectedOptionSet)) (name : String) :
    Bool :=
  match (detected.find? (fun kv => kv.1 == name)).map (·.2) with
  | some opt => opt.is_multi_select
  | none => false

/-- The keys `upsert_batch` assigns directly after projection; a projected
column of the same name is overwritten by that assignment, so its final
value lives in the record's dedicated field. -/
def RESERVED : List String := ["json_response", "sync_time", "valid_from"]

/-- STEP 2 of `upsert_batch`: project the schema columns present in the
API record, skipping multi-select option-set fields. -/
def projectRecord (schema : TableSchema) (detected : List (String × DetectedOptionSet))
    (rec : ObjData) : ObjData :=
  (schema.columns.filterMap (fun col =>
    match lookupKey rec col.name with
    | some v => if isMultiSelectField detected col.name then none else some (col.name, v)
    | none => none)).filter (fun kv => !(RESERVED.contains kv.1))

/-- `record["valid_from"] = api_record.get("modifiedon") or now`; the model
renders a truthy non-string `modifiedon` by its text. -/
def validFromOf (rec : ObjData) (now : String) : String :=
  match lookupKey rec "modifiedon" with
  | some (.s t) => if t.isEmpty then now else t
  | some (.i n) => if n == 0 then now else toString n
  | some .null => now
  | none => now

/-- The accumulating state of `upsert_batch`: the entity table, its
AUTOINCREMENT counter, and the `(added, updated)` counters.  (The lookup
and junction side effects of STEP 4 are modeled separately by
`populate_detected_option_set_field`; they never touch the entity table.) -/
structure BatchState where
  tbl : List EntityRow
  nextId : Nat
  added : Nat
  updated : Nat
deriving DecidableEq, Repr

/-- One iteration of `upsert_batch`'s record loop; `none` propagates a
detector exception. -/
def processApiRecord (schema : TableSchema) (bkCol : String) (now : String)
    (st : BatchState) (rec : ObjData) : Option BatchState :=
  let entityId := lookupKey rec bkCol
  if !truthy entityId then some st
  else
    match detectFromRecord rec with
    | none => none
    | some detected =>
        let record : EntityRecord :=
          { vals := projectRecord schema detected rec
            json_response := canonicalJson rec
            sync_time := now
            valid_from := validFromOf rec now }
        let u := upsert_scd2 st.tbl st.nextId bkCol record
        some { tbl := u.1
               nextId := u.2.1
               added := st.added + (if u.2.2.is_new_entity then 1 else 0)
               updated := st.updated +
                 (if !u.2.2.is_new_entity && u.2.2.version_created then 1 else 0) }

/-- `SCD2Upserter.upsert_batch` (entity-table slice), with `now` the run's
wall-clock timestamp. -/
def upsert_batch (tbl : List EntityRow) (nextId : Nat) (bkCol : String)
    (schema : TableSchema) (apiRecords : List ObjData) (now : String) :
    Option BatchState :=
  apiRecords.foldlM (processApiRecord schema bkCol now) ⟨tbl, nextId, 0, 0⟩

/-! ### Infrastructure for batch idempotence (claim C3) -/

/-- The database primary key keeps surrogate row ids distinct. -/
def NodupIds (tbl : List EntityRow) : Prop := (tbl.map (·.row_id)).Nodup

/-- The AUTOINCREMENT counter lies above every stored row id. -/
def FreshIds (tbl : List EntityRow) (n : Nat) : Prop := ∀ row ∈ tbl, row.row_id < n

/-- The active row the SCD2 lookup would fetch for a business-key value. -/
def activeRowFor (bkCol : String) (tbl : List EntityRow) (v : Option JVal) :
    Option EntityRow :=
  tbl.find? (isActiveRow bkCol v)

/-- Whether one API record's second-run sync touches a given stored row:
the record has a truthy key and the row is its active version. -/
def touchedByOne (bkCol : String) (rec : ObjData) (row : EntityRow) : Bool :=
  truthy (lookupKey rec bkCol) && sqlEq (rowBk bkCol row) (lookupKey rec bkCol)
    && row.valid_to == none

/-- Whether any record of the batch touches the row. -/
def touchedBy (bkCol : String) (records : List ObjData) (row : EntityRow) : Bool :=
  records.any (fun rec => touchedByOne bkCol rec row)

theorem upsert_scd2_eq_of_none (tbl : List EntityRow) (nextId : Nat)
    (bkCol : String) (r : EntityRecord)
    (hfind : tbl.find? (isActiveRow bkCol (lookupKey r.vals bkCol)) = none) :
    upsert_scd2 tbl nextId bkCol r =
      (tbl ++ [newEntityRow nextId r], nextId + 1,
        ⟨true, true, r.valid_from, lookupKey r.vals bkCol⟩) := by
  simp [upsert_scd2, hfind]

theorem upsert_scd2_eq_of_same (tbl : List EntityRow) (nextId : Nat)
    (bkCol : String) (r : EntityRecord) (a : EntityRow)
    (hfind : tbl.find? (isActiveRow bkCol (lookupKey r.vals bkCol)) = some a)
    (hjson : (a.json_response == r.json_response) = true) :
    upsert_scd2 tbl nextId bkCol r =
      (tbl.map (fun row =>
          if row.row_id == a.row_id then { row with sync_time := r.sync_time } else row),
       nextId, ⟨false, false, r.valid_from, lookupKey r.vals bkCol⟩) := by
  simp [upsert_scd2, hfind, hjson]

theorem upsert_scd2_eq_of_diff (tbl : List EntityRow) (nextId : Nat)
    (bkCol : String) (r : EntityRecord) (a : EntityRow)
    (hfind : tbl.find? (isActiveRow bkCol (lookupKey r.vals bkCol)) = some a)
    (hjson : (a.json_response == r.json_response) = false) :
    upsert_scd2 tbl nextId bkCol r =
      (tbl.map (fun row =>
          if row.row_id == a.row_id then { row with valid_to := some r.valid_from } else row)
         ++ [newEntityRow nextId r],
       nextId + 1, ⟨false, true, r.valid_from, lookupKey r.vals bkCol⟩) := by
  simp [upsert_scd2, hfind, hjson]

theorem find?_map_eq_of {α : Type _} (g : α → α) (p : α → Bool) (l : List α)
    (h1 : ∀ x ∈ l, p (g x) = p x) (h2 : ∀ x ∈ l, p x = true → g x = x) :
    (l.map g).find? p = l.find? p := by
  induction l with
  | nil => simp
  | cons x xs ih =>
    by_cases hx : p x = true
    · rw [List.map_cons, List.find?_cons_of_pos _ (by
          rw [h1 x (List.mem_cons_self _ _)]; exact hx),
        List.find?_cons_of_pos _ hx, h2 x (List.mem_cons_self _ _) hx]
    · rw [List.map_cons, List.find?_cons_of_neg _ (by
          rw [h1 x (List.mem_cons_self _ _)]; exact hx),
        List.find?_cons_of_neg _ hx]
      exact ih (fun y hy => h1 y (List.mem_cons_of_mem _ hy))
        (fun y hy => h2 y (List.mem_cons_of_mem _ hy))

theorem isActiveRow_if_set_sync (bkCol : String) (v : Option JVal)
    (t : String) (rid : Nat) (x : EntityRow) :
    isActiveRow bkCol v (if x.row_id == rid then { x with sync_time := t } else x) =
      isActiveRow bkCol v x := by
  by_cases hx : (x.row_id == rid) = true
  · rw [if_pos hx, isActiveRow_set_sync_time]
  · rw [if_neg hx]

theorem rowId_injective (tbl : List EntityRow) (hnodup : NodupIds tbl)
    {a b : EntityRow} (ha : a ∈ tbl) (hb : b ∈ tbl)
    (hid : a.row_id = b.row_id) : a = b := by
  exact List.inj_on_of_nodup_map hnodup ha hb hid

theorem scd2_ids_step (tbl : List EntityRow) (n : Nat) (bkCol : String) (r : EntityRecord)
    (hnodup : NodupIds tbl) (hfresh : FreshIds tbl n) :
    NodupIds (upsert_scd2 tbl n bkCol r).1
    ∧ FreshIds (upsert_scd2 tbl n bkCol r).1 (upsert_scd2 tbl n bkCol r).2.1
    ∧ n ≤ (upsert_scd2 tbl n bkCol r).2.1 := by
  have happend : NodupIds (tbl ++ [newEntityRow n r]) := by
    unfold NodupIds at hnodup ⊢
    rw [List.map_append, List.nodup_append]
    refine ⟨hnodup, by simp, ?_⟩
    intro i hi hmem
    have : i = n := by simpa [newEntityRow] using hmem
    rcases List.mem_map.mp hi with ⟨row, hrow, hrid⟩
    have := hfresh row hrow
    omega
  have happendF : FreshIds (tbl ++ [newEntityRow n r]) (n + 1) := by
    intro row hrow
    rcases List.mem_append.mp hrow with h | h
    · have := hfresh row h
      omega
    · have : row = newEntityRow n r := by simpa using h
      rw [this]
      exact Nat.lt_succ_self n
  cases hfind : tbl.find? (isActiveRow bkCol (lookupKey r.vals bkCol)) with
  | none =>
    rw [upsert_scd2_eq_of_none tbl n bkCol r hfind]
    exact ⟨happend, happendF, Nat.le_succ n⟩
  | some a =>
    by_cases hjson : (a.json_response == r.json_response) = true
    · rw [upsert_scd2_eq_of_same tbl n bkCol r a hfind hjson]
      have hids : (tbl.map (fun row =>
          if row.row_id == a.row_id then { row with sync_time := r.sync_time } else row)).map
            (·.row_id) = tbl.map (·.row_id) := by
        rw [List.map_map]
        apply List.map_congr_left
        intro x _
        by_cases hx : (x.row_id == a.row_id) = true
        · simp only [Function.comp, hx, if_true]
        · simp only [Function.comp, hx, Bool.false_eq_true, if_false]
      refine ⟨?_, ?_, Nat.le_refl n⟩
      · unfold NodupIds
        rw [hids]
        exact hnodup
      · intro row hrow
        rcases List.mem_map.mp hrow with ⟨x, hx, hfx⟩
        rw [← hfx]
        by_cases hid : (x.row_id == a.row_id) = true
        · simpa [hid] using hfresh x hx
        · simpa [hid] using hfresh x hx
    · have hjson' : (a.json_response == r.json_response) = false := by
        simpa using hjson
      rw [upsert_scd2_eq_of_diff tbl n bkCol r a hfind hjson']
      have hids : (tbl.map (fun row =>
          if row.row_id == a.row_id then { row with valid_to := some r.valid_from } else row)).map
            (·.row_id) = tbl.map (·.row_id) := by
        rw [List.map_map]
        apply List.map_congr_left
        intro x _
        by_cases hx : (x.row_id == a.row_id) = true
        · simp only [Function.comp, hx, if_true]
        · simp only [Function.comp, hx, Bool.false_eq_true, if_false]
      refine ⟨?_, ?_, Nat.le_succ n⟩
      · unfold NodupIds
        rw [List.map_append, hids]
        have := happend
        unfold NodupIds at this
        rw [List.map_append] at this
        exact this
      · intro row hrow
        rcases List.mem_append.mp hrow with h | h
        · rcases List.mem_map.mp h with ⟨x, hx, hfx⟩
          rw [← hfx]
          by_cases hid : (x.row_id == a.row_id) = true
          · have := hfresh x hx
            simp only [hid, if_true]
            omega
          · have := hfresh x hx
            simp only [hid, Bool.false_eq_true, if_false]
            omega
        · have : row = newEntityRow n r := by simpa using h
          rw [this]
          exact Nat.lt_succ_self n

theorem isActiveRow_if_close (bkCol : String) (v : Option JVal)
    (t : String) (rid : Nat) (x : EntityRow) (hx : (x.row_id == rid) = true) :
    isActiveRow bkCol v (if x.row_id == rid then { x with valid_to := some t } else x) = false := by
  rw [if_pos hx, isActiveRow_close]

theorem isActiveRow_dest {bkCol : String} {v : Option JVal} {row : EntityRow}
    (h : isActiveRow bkCol v row = true) :
    ∃ val, v = some val ∧ rowBk bkCol row = some val ∧ row.valid_to = none := by
  unfold isActiveRow at h
  rw [Bool.and_eq_true] at h
  rcases sqlEq_some_dest h.1 with ⟨x, y, hx, hy, hxy⟩
  exact ⟨y, hy, by rw [hx, hxy], by simpa using h.2⟩

theorem scd2_active_self_step (tbl : List EntityRow) (n : Nat) (bkCol : String)
    (r : EntityRecord) (hAMO : AtMostOneActive bkCol tbl)
    (val : JVal) (hv : lookupKey r.vals bkCol = some val) (hvn : val ≠ JVal.null) :
    ∃ a', activeRowFor bkCol (upsert_scd2 tbl n bkCol r).1 (lookupKey r.vals bkCol) = some a'
      ∧ a'.json_response = r.json_response := by
  have hpnew : isActiveRow bkCol (lookupKey r.vals bkCol) (newEntityRow n r) = true := by
    unfold isActiveRow rowBk newEntityRow
    simp [hv, sqlEq, sqlEqV_self hvn]
  cases hfind : tbl.find? (isActiveRow bkCol (lookupKey r.vals bkCol)) with
  | none =>
    refine ⟨newEntityRow n r, ?_, rfl⟩
    rw [upsert_scd2_eq_of_none tbl n bkCol r hfind]
    unfold activeRowFor
    rw [find?_append_of_none hfind]
    rw [List.find?_cons_of_pos _ hpnew]
  | some a =>
    by_cases hjson : (a.json_response == r.json_response) = true
    · refine ⟨{ a with sync_time := r.sync_time }, ?_, by simpa using hjson⟩
      rw [upsert_scd2_eq_of_same tbl n bkCol r a hfind hjson]
      unfold activeRowFor
      rw [find?_map_pres _ _ _ (fun x => isActiveRow_if_set_sync bkCol
        (lookupKey r.vals bkCol) r.sync_time a.row_id x), hfind]
      simp
    · have hjson' : (a.json_response == r.json_response) = false := by simpa using hjson
      have hpa : isActiveRow bkCol (lookupKey r.vals bkCol) a = true := List.find?_some hfind
      have hmema : a ∈ tbl := List.mem_of_find?_eq_some hfind
      have hsingle : tbl.filter (isActiveRow bkCol (some val)) = [a] := by
        apply eq_singleton_of_mem_of_length_le_one
        · exact List.mem_filter.mpr ⟨hmema, by rwa [hv] at hpa⟩
        · exact hAMO val
      refine ⟨newEntityRow n r, ?_, rfl⟩
      rw [upsert_scd2_eq_of_diff tbl n bkCol r a hfind hjson']
      unfold activeRowFor
      have hclosed : (tbl.map (fun row =>
          if row.row_id == a.row_id then { row with valid_to := some r.valid_from } else row)).find?
            (isActiveRow bkCol (lookupKey r.vals bkCol)) = none := by
        rw [List.find?_eq_none]
        intro y hy
        rcases List.mem_map.mp hy with ⟨x, hxmem, rfl⟩
        by_cases hid : (x.row_id == a.row_id) = true
        · rw [isActiveRow_if_close bkCol _ r.valid_from a.row_id x hid]
          simp
        · rw [if_neg hid]
          intro hpx
          have : x ∈ tbl.filter (isActiveRow bkCol (some val)) :=
            List.mem_filter.mpr ⟨hxmem, by rwa [hv] at hpx⟩
          rw [hsingle] at this
          have hxa : x = a := by simpa using this
          rw [hxa] at hid
          simp at hid
      rw [find?_append_of_none hclosed]
      rw [List.find?_cons_of_pos _ hpnew]

theorem scd2_active_other_step (tbl : List EntityRow) (n : Nat) (bkCol : String)
    (r : EntityRecord) (hnodup : NodupIds tbl) (v : Option JVal) (a : EntityRow)
    (hfind : activeRowFor bkCol tbl v = some a)
    (hne : v ≠ lookupKey r.vals bkCol) :
    activeRowFor bkCol (upsert_scd2 tbl n bkCol r).1 v = some a := by
  have hpa : isActiveRow bkCol v a = true := List.find?_some hfind
  have hmema : a ∈ tbl := List.mem_of_find?_eq_some hfind
  rcases isActiveRow_dest hpa with ⟨val, hvval, hbka, hvta⟩
  unfold activeRowFor at hfind ⊢
  cases hfindbk : tbl.find? (isActiveRow bkCol (lookupKey r.vals bkCol)) with
  | none =>
    rw [upsert_scd2_eq_of_none tbl n bkCol r hfindbk]
    rw [find?_append_of_some hfind]
  | some b =>
    have hpb : isActiveRow bkCol (lookupKey r.vals bkCol) b = true := List.find?_some hfindbk
    have hmemb : b ∈ tbl := List.mem_of_find?_eq_some hfindbk
    rcases isActiveRow_dest hpb with ⟨valb, hbkv, hbkb, hvtb⟩
    have hpbv : isActiveRow bkCol v b = false := by
      unfold isActiveRow
      rw [hvval, hbkb]
      have : valb ≠ val := by
        intro hcontra
        apply hne
        rw [hvval, hbkv, hcontra]
      simp [sqlEq, sqlEqV_eq_false_of_ne this]
    have hid_of_pos : ∀ x ∈ tbl, isActiveRow bkCol v x = true → (x.row_id == b.row_id) = false := by
      intro x hx hpx
      by_contra hcontra
      have hbeq : (x.row_id == b.row_id) = true := by
        cases hbb : (x.row_id == b.row_id)
        · exact absurd hbb hcontra
        · rfl
      have hxb : x = b := rowId_injective tbl hnodup hx hmemb (by simpa using hbeq)
      rw [hxb, hpbv] at hpx
      cases hpx
    by_cases hjson : (b.json_response == r.json_response) = true
    · rw [upsert_scd2_eq_of_same tbl n bkCol r b hfindbk hjson]
      rw [find?_map_eq_of _ _ _
        (fun x _ => isActiveRow_if_set_sync bkCol v r.sync_time b.row_id x)
        (fun x hx hpx => by rw [if_neg (by simp [hid_of_pos x hx hpx])])]
      exact hfind
    · have hjson' : (b.json_response == r.json_response) = false := by simpa using hjson
      rw [upsert_scd2_eq_of_diff tbl n bkCol r b hfindbk hjson']
      have hmapsame : (tbl.map (fun row =>
          if row.row_id == b.row_id then { row with valid_to := some r.valid_from } else row)).find?
            (isActiveRow bkCol v) = some a := by
        rw [find?_map_eq_of _ _ _ ?_ ?_]
        · exact hfind
        · intro x hx
          by_cases hidx : (x.row_id == b.row_id) = true
          · have hxb : x = b := rowId_injective tbl hnodup hx hmemb (by simpa using hidx)
            rw [isActiveRow_if_close bkCol v r.valid_from b.row_id x hidx, hxb, hpbv]
          · rw [if_neg hidx]
        · intro x hx hpx
          rw [if_neg (by simp [hid_of_pos x hx hpx])]
      rw [find?_append_of_some hmapsame]

theorem lookupKey_cons (k : String) (v : JVal) (l : ObjData) (key : String) :
    lookupKey ((k, v) :: l) key = if (k == key) = true then some v else lookupKey l key := by
  by_cases hk : (k == key) = true
  · rw [if_pos hk]
    unfold lookupKey
    rw [List.find?_cons_of_pos _ (by simpa using hk)]
    rfl
  · rw [if_neg hk]
    unfold lookupKey
    rw [List.find?_cons_of_neg _ (by simpa using hk)]

theorem lookup_projCols (cols : List ColumnMetadata)
    (detected : List (String × DetectedOptionSet)) (rec : ObjData) (bkCol : String)
    (hmem : bkCol ∈ cols.map (·.name))
    (hres : RESERVED.contains bkCol = false)
    (hmulti : isMultiSelectField detected bkCol = false)
    (v : JVal) (hv : lookupKey rec bkCol = some v) :
    lookupKey ((cols.filterMap (fun col =>
        match lookupKey rec col.name with
        | some w => if isMultiSelectField detected col.name then none else some (col.name, w)
        | none => none)).filter (fun kv => !(RESERVED.contains kv.1))) bkCol = some v := by
  induction cols with
  | nil => cases hmem
  | cons c cs ih =>
    by_cases hc : c.name = bkCol
    · rw [List.filterMap_cons]
      have hcv : lookupKey rec c.name = some v := by rw [hc]; exact hv
      have hcm : isMultiSelectField detected c.name = false := by rw [hc]; exact hmulti
      rw [hcv]
      simp only [hcm, Bool.false_eq_true, if_false]
      rw [List.filter_cons]
      have hkeep : (!(RESERVED.contains (c.name, v).1)) = true := by
        simp only
        rw [hc, hres]
        rfl
      rw [if_pos hkeep, lookupKey_cons]
      rw [if_pos (by simpa using hc)]
    · have hmem' : bkCol ∈ cs.map (·.name) := by
        rcases List.mem_map.mp hmem with ⟨col, hcol, hname⟩
        rcases List.mem_cons.mp hcol with hh | hh
        · exact absurd (by rw [← hh]; exact hname) hc
        · exact List.mem_map.mpr ⟨col, hh, hname⟩
      rw [List.filterMap_cons]
      cases hfc : lookupKey rec c.name with
      | none => exact ih hmem'
      | some w =>
        by_cases hm : isMultiSelectField detected c.name = true
        · simp only [hm, if_true]
          exact ih hmem'
        · have hm' : isMultiSelectField detected c.name = false := by simpa using hm
          simp only [hm', Bool.false_eq_true, if_false]
          rw [List.filter_cons]
          by_cases hkeep : (!(RESERVED.contains (c.name, w).1)) = true
          · rw [if_pos hkeep, lookupKey_cons]
            rw [if_neg (by simpa using hc)]
            exact ih hmem'
          · rw [if_neg hkeep]
            exact ih hmem'

theorem lookup_projectRecord (schema : TableSchema)
    (detected : List (String × DetectedOptionSet)) (rec : ObjData) (bkCol : String)
    (hmem : bkCol ∈ schema.columns.map (·.name))
    (hres : RESERVED.contains bkCol = false)
    (hmulti : isMultiSelectField detected bkCol = false)
    (v : JVal) (hv : lookupKey rec bkCol = some v) :
    lookupKey (projectRecord schema detected rec) bkCol = some v :=
  lookup_projCols schema.columns detected rec bkCol hmem hres hmulti v hv

theorem truthy_dest {o : Option JVal} (h : truthy o = true) : ∃ val, o = some val := by
  cases o with
  | none => simp [truthy] at h
  | some val => exact ⟨val, rfl⟩

theorem processApiRecord_eq_skip (schema : TableSchema) (bkCol now : String)
    (st : BatchState) (rec : ObjData)
    (htr : truthy (lookupKey rec bkCol) = false) :
    processApiRecord schema bkCol now st rec = some st := by
  unfold processApiRecord
  simp [htr]

theorem processApiRecord_eq_truthy (schema : TableSchema) (bkCol now : String)
    (st : BatchState) (rec : ObjData) (detected : List (String × DetectedOptionSet))
    (htr : truthy (lookupKey rec bkCol) = true)
    (hdet : detectFromRecord rec = some detected) :
    processApiRecord schema bkCol now st rec =
      some ⟨(upsert_scd2 st.tbl st.nextId bkCol
               ⟨projectRecord schema detected rec, canonicalJson rec, now, validFromOf rec now⟩).1,
            (upsert_scd2 st.tbl st.nextId bkCol
               ⟨projectRecord schema detected rec, canonicalJson rec, now, validFromOf rec now⟩).2.1,
            st.added + (if (upsert_scd2 st.tbl st.nextId bkCol
               ⟨projectRecord schema detected rec, canonicalJson rec, now, validFromOf rec now⟩).2.2.is_new_entity
              then 1 else 0),
            st.updated + (if (!(upsert_scd2 st.tbl st.nextId bkCol
               ⟨projectRecord schema detected rec, canonicalJson rec, now, validFromOf rec now⟩).2.2.is_new_entity
              && (upsert_scd2 st.tbl st.nextId bkCol
               ⟨projectRecord schema detected rec, canonicalJson rec, now, validFromOf rec now⟩).2.2.version_created)
              then 1 else 0)⟩ := by
  unfold processApiRecord
  simp [htr, hdet]

theorem processApiRecord_detect_of_some (schema : TableSchema) (bkCol now : String)
    (st st' : BatchState) (rec : ObjData)
    (htr : truthy (lookupKey rec bkCol) = true)
    (hstep : processApiRecord schema bkCol now st rec = some st') :
    ∃ d, detectFromRecord rec = some d := by
  unfold processApiRecord at hstep
  simp only [htr, Bool.not_true, Bool.false_eq_true, if_false] at hstep
  cases hdet : detectFromRecord rec with
  | none =>
      rw [hdet] at hstep
      cases hstep
  | some d => exact ⟨d, rfl⟩

theorem process_step_props (schema : TableSchema) (bkCol now : String)
    (st st' : BatchState) (rec : ObjData)
    (hbkcol : bkCol ∈ schema.columns.map (·.name))
    (hbkres : RESERVED.contains bkCol = false)
    (hbkmulti : ∀ d, detectFromRecord rec = some d → isMultiSelectField d bkCol = false)
    (hAMO : AtMostOneActive bkCol st.tbl) (hnodup : NodupIds st.tbl)
    (hfresh : FreshIds st.tbl st.nextId)
    (hstep : processApiRecord schema bkCol now st rec = some st') :
    AtMostOneActive bkCol st'.tbl ∧ NodupIds st'.tbl ∧ FreshIds st'.tbl st'.nextId
    ∧ (truthy (lookupKey rec bkCol) = true →
        ∃ a, activeRowFor bkCol st'.tbl (lookupKey rec bkCol) = some a
          ∧ a.json_response = canonicalJson rec)
    ∧ (∀ v a, activeRowFor bkCol st.tbl v = some a → v ≠ lookupKey rec bkCol →
        activeRowFor bkCol st'.tbl v = some a) := by
  cases htr : truthy (lookupKey rec bkCol) with
  | false =>
    rw [processApiRecord_eq_skip schema bkCol now st rec htr] at hstep
    obtain rfl : st = st' := by injection hstep
    refine ⟨hAMO, hnodup, hfresh, ?_, ?_⟩
    · intro hcontra
      cases hcontra
    · intro v a hfind _
      exact hfind
  | true =>
    obtain ⟨detected, hdet⟩ :=
      processApiRecord_detect_of_some schema bkCol now st st' rec htr hstep
    rw [processApiRecord_eq_truthy schema bkCol now st rec detected htr hdet] at hstep
    obtain ⟨val, hval⟩ := truthy_dest htr
    set record : EntityRecord :=
      ⟨projectRecord schema detected rec, canonicalJson rec, now, validFromOf rec now⟩ with hrecord
    have hbk : lookupKey record.vals bkCol = lookupKey rec bkCol := by
      rw [hrecord]
      show lookupKey (projectRecord schema detected rec) bkCol = lookupKey rec bkCol
      rw [hval]
      exact lookup_projectRecord schema detected rec bkCol hbkcol hbkres
        (hbkmulti detected hdet) val hval
    have htbl : st'.tbl = (upsert_scd2 st.tbl st.nextId bkCol record).1 := by
      have := (Option.some.inj hstep).symm
      rw [this]
    have hnid : st'.nextId = (upsert_scd2 st.tbl st.nextId bkCol record).2.1 := by
      have := (Option.some.inj hstep).symm
      rw [this]
    refine ⟨?_, ?_, ?_, ?_, ?_⟩
    · rw [htbl]
      exact scd2_atMostOneActive_step st.tbl st.nextId bkCol record hAMO
    · rw [htbl]
      exact (scd2_ids_step st.tbl st.nextId bkCol record hnodup hfresh).1
    · rw [htbl, hnid]
      exact (scd2_ids_step st.tbl st.nextId bkCol record hnodup hfresh).2.1
    · intro _
      have hvn : val ≠ JVal.null := by
        intro hcontra
        rw [hval, hcontra] at htr
        simp [truthy, truthyV] at htr
      obtain ⟨a, hfind, hjson⟩ := scd2_active_self_step st.tbl st.nextId bkCol record hAMO
        val (by rw [hbk]; exact hval) hvn
      refine ⟨a, ?_, hjson⟩
      rw [htbl, ← hbk]
      exact hfind
    · intro v a hfind hne
      rw [htbl]
      exact scd2_active_other_step st.tbl st.nextId bkCol record hnodup v a hfind
        (by rw [hbk]; exact hne)

theorem fold_active_mono (schema : TableSchema) (bkCol now : String)
    (recs : List ObjData) :
    ∀ (st0 stF : BatchState) (v : Option JVal) (a : EntityRow),
    (∀ rec ∈ recs, ∀ d, detectFromRecord rec = some d → isMultiSelectField d bkCol = false) →
    bkCol ∈ schema.columns.map (·.name) → RESERVED.contains bkCol = false →
    AtMostOneActive bkCol st0.tbl → NodupIds st0.tbl → FreshIds st0.tbl st0.nextId →
    activeRowFor bkCol st0.tbl v = some a →
    (∀ r ∈ recs, truthy (lookupKey r bkCol) = true → lookupKey r bkCol ≠ v) →
    recs.foldlM (processApiRecord schema bkCol now) st0 = some stF →
    activeRowFor bkCol stF.tbl v = some a := by
  induction recs with
  | nil =>
    intro st0 stF v a _ _ _ _ _ _ hfind _ hfold
    obtain rfl : st0 = stF := by simpa using hfold
    exact hfind
  | cons rec rest ih =>
    intro st0 stF v a hmulti hbkcol hbkres hAMO hnodup hfresh hfind hdiffs hfold
    rw [List.foldlM_cons] at hfold
    cases hstep : processApiRecord schema bkCol now st0 rec with
    | none =>
      rw [hstep] at hfold
      cases hfold
    | some st1 =>
      rw [hstep] at hfold
      simp only [Option.bind_eq_bind, Option.some_bind] at hfold
      obtain ⟨hAMO1, hnodup1, hfresh1, _, hother⟩ :=
        process_step_props schema bkCol now st0 st1 rec hbkcol hbkres
          (hmulti rec (List.mem_cons_self _ _)) hAMO hnodup hfresh hstep
      have hfind1 : activeRowFor bkCol st1.tbl v = some a := by
        cases htr : truthy (lookupKey rec bkCol) with
        | true =>
          exact hother v a hfind (fun h => hdiffs rec (List.mem_cons_self _ _) htr h.symm)
        | false =>
          rw [processApiRecord_eq_skip schema bkCol now st0 rec htr] at hstep
          obtain rfl : st0 = st1 := by injection hstep
          exact hfind
      exact ih st1 stF v a (fun r hr => hmulti r (List.mem_cons_of_mem _ hr)) hbkcol hbkres
        hAMO1 hnodup1 hfresh1 hfind1 (fun r hr => hdiffs r (List.mem_cons_of_mem _ hr)) hfold

theorem run1_fold_props (schema : TableSchema) (bkCol now : String)
    (recs : List ObjData) :
    ∀ (st0 stF : BatchState),
    bkCol ∈ schema.columns.map (·.name) → RESERVED.contains bkCol = false →
    (∀ rec ∈ recs, ∀ d, detectFromRecord rec = some d → isMultiSelectField d bkCol = false) →
    recs.Pairwise (fun r1 r2 => truthy (lookupKey r1 bkCol) = true →
      truthy (lookupKey r2 bkCol) = true → lookupKey r1 bkCol ≠ lookupKey r2 bkCol) →
    AtMostOneActive bkCol st0.tbl → NodupIds st0.tbl → FreshIds st0.tbl st0.nextId →
    recs.foldlM (processApiRecord schema bkCol now) st0 = some stF →
    AtMostOneActive bkCol stF.tbl ∧ NodupIds stF.tbl ∧ FreshIds stF.tbl stF.nextId
    ∧ (∀ rec ∈ recs, truthy (lookupKey rec bkCol) = true →
        (∃ d, detectFromRecord rec = some d)
        ∧ ∃ a, activeRowFor bkCol stF.tbl (lookupKey rec bkCol) = some a
            ∧ a.json_response = canonicalJson rec) := by
  induction recs with
  | nil =>
    intro st0 stF _ _ _ _ hAMO hnodup hfresh hfold
    obtain rfl : st0 = stF := by simpa using hfold
    exact ⟨hAMO, hnodup, hfresh, by simp⟩
  | cons rec rest ih =>
    intro st0 stF hbkcol hbkres hmulti hdist hAMO hnodup hfresh hfold
    rw [List.foldlM_cons] at hfold
    cases hstep : processApiRecord schema bkCol now st0 rec with
    | none =>
      rw [hstep] at hfold
      cases hfold
    | some st1 =>
      rw [hstep] at hfold
      simp only [Option.bind_eq_bind, Option.some_bind] at hfold
      obtain ⟨hAMO1, hnodup1, hfresh1, hself, _⟩ :=
        process_step_props schema bkCol now st0 st1 rec hbkcol hbkres
          (hmulti rec (List.mem_cons_self _ _)) hAMO hnodup hfresh hstep
      rw [List.pairwise_cons] at hdist
      obtain ⟨hAMOF, hnodupF, hfreshF, hrest⟩ :=
        ih st1 stF hbkcol hbkres (fun r hr => hmulti r (List.mem_cons_of_mem _ hr))
          hdist.2 hAMO1 hnodup1 hfresh1 hfold
      refine ⟨hAMOF, hnodupF, hfreshF, ?_⟩
      intro r hr htr
      rcases List.mem_cons.mp hr with hh | hh
      · subst hh
        refine ⟨processApiRecord_detect_of_some schema bkCol now st0 st1 r htr hstep, ?_⟩
        obtain ⟨a, hfind1, hjson⟩ := hself htr
        refine ⟨a, ?_, hjson⟩
        exact fold_active_mono schema bkCol now rest st1 stF (lookupKey r bkCol) a
          (fun r' hr' => hmulti r' (List.mem_cons_of_mem _ hr')) hbkcol hbkres
          hAMO1 hnodup1 hfresh1 hfind1
          (fun r' hr' htr' => (hdist.1 r' hr' htr htr').symm) hfold
      · exact hrest r hh htr

theorem updF_row_id (p : EntityRow → Bool) (t : String) (row : EntityRow) :
    (if p row then { row with sync_time := t } else row).row_id = row.row_id := by
  by_cases hp : p row = true
  · rw [if_pos hp]
  · rw [if_neg hp]

theorem updF_json (p : EntityRow → Bool) (t : String) (row : EntityRow) :
    (if p row then { row with sync_time := t } else row).json_response = row.json_response := by
  by_cases hp : p row = true
  · rw [if_pos hp]
  · rw [if_neg hp]

theorem isActiveRow_if_pred_sync (bkCol : String) (v : Option JVal)
    (p : EntityRow → Bool) (t : String) (row : EntityRow) :
    isActiveRow bkCol v (if p row then { row with sync_time := t } else row) =
      isActiveRow bkCol v row := by
  by_cases hp : p row = true
  · rw [if_pos hp, isActiveRow_set_sync_time]
  · rw [if_neg hp]

theorem touchedByOne_of_active (bkCol : String) (rec : ObjData) (row : EntityRow)
    (htr : truthy (lookupKey rec bkCol) = true)
    (hact : isActiveRow bkCol (lookupKey rec bkCol) row = true) :
    touchedByOne bkCol rec row = true := by
  unfold isActiveRow at hact
  rw [Bool.and_eq_true] at hact
  unfold touchedByOne
  rw [htr, hact.1, hact.2]
  rfl

theorem active_of_touchedByOne (bkCol : String) (rec : ObjData) (row : EntityRow)
    (h : touchedByOne bkCol rec row = true) :
    isActiveRow bkCol (lookupKey rec bkCol) row = true := by
  unfold touchedByOne at h
  rw [Bool.and_eq_true, Bool.and_eq_true] at h
  unfold isActiveRow
  rw [h.1.2, h.2]
  rfl

theorem processApiRecord_run2_step (schema : TableSchema) (bkCol now : String)
    (tbl : List EntityRow) (n : Nat) (rec : ObjData)
    (detected : List (String × DetectedOptionSet)) (a' : EntityRow)
    (htr : truthy (lookupKey rec bkCol) = true)
    (hdet : detectFromRecord rec = some detected)
    (hfind : tbl.find? (isActiveRow bkCol
      (lookupKey (projectRecord schema detected rec) bkCol)) = some a')
    (hjs : (a'.json_response == canonicalJson rec) = true) :
    processApiRecord schema bkCol now ⟨tbl, n, 0, 0⟩ rec =
      some ⟨tbl.map (fun row =>
          if row.row_id == a'.row_id then { row with sync_time := now } else row),
        n, 0, 0⟩ := by
  have hueq := upsert_scd2_eq_of_same tbl n bkCol
    ⟨projectRecord schema detected rec, canonicalJson rec, now, validFromOf rec now⟩
    a' hfind hjs
  unfold processApiRecord
  simp [htr, hdet, hueq]

theorem run2_fold (schema : TableSchema) (bkCol now2 : String) (recs : List ObjData) :
    ∀ (base : List EntityRow) (n : Nat) (donePred : EntityRow → Bool),
    bkCol ∈ schema.columns.map (·.name) → RESERVED.contains bkCol = false →
    (∀ rec ∈ recs, ∀ d, detectFromRecord rec = some d → isMultiSelectField d bkCol = false) →
    AtMostOneActive bkCol base → NodupIds base →
    (∀ rec ∈ recs, truthy (lookupKey rec bkCol) = true →
        (∃ d, detectFromRecord rec = some d)
        ∧ ∃ a, activeRowFor bkCol base (lookupKey rec bkCol) = some a
            ∧ a.json_response = canonicalJson rec) →
    recs.foldlM (processApiRecord schema bkCol now2)
        ⟨base.map (fun row => if donePred row then { row with sync_time := now2 } else row),
         n, 0, 0⟩
      = some ⟨base.map (fun row =>
            if donePred row || touchedBy bkCol recs row then { row with sync_time := now2 }
            else row),
          n, 0, 0⟩ := by
  induction recs with
  | nil =>
    intro base n donePred _ _ _ _ _ _
    have hpred : (fun row : EntityRow =>
        if donePred row || touchedBy bkCol [] row then { row with sync_time := now2 } else row) =
        (fun row : EntityRow =>
          if donePred row then { row with sync_time := now2 } else row) := by
      funext row
      simp [touchedBy]
    rw [hpred]
    rfl
  | cons rec rest ih =>
    intro base n donePred hbkcol hbkres hmulti hAMO hnodup hactive
    rw [List.foldlM_cons]
    cases htr : truthy (lookupKey rec bkCol) with
    | false =>
      rw [processApiRecord_eq_skip schema bkCol now2 _ rec htr]
      simp only [Option.bind_eq_bind, Option.some_bind]
      rw [ih base n donePred hbkcol hbkres
        (fun r hr => hmulti r (List.mem_cons_of_mem _ hr)) hAMO hnodup
        (fun r hr => hactive r (List.mem_cons_of_mem _ hr))]
      have hpred : (fun row : EntityRow =>
          if donePred row || touchedBy bkCol rest row then { row with sync_time := now2 }
          else row) =
          (fun row : EntityRow =>
            if donePred row || touchedBy bkCol (rec :: rest) row then
              { row with sync_time := now2 }
            else row) := by
        funext row
        have hfalse : touchedByOne bkCol rec row = false := by
          unfold touchedByOne
          rw [htr]
          rfl
        simp [touchedBy, hfalse]
      rw [hpred]
    | true =>
      obtain ⟨⟨detected, hdet⟩, a, hfinda, hjsona⟩ :=
        hactive rec (List.mem_cons_self _ _) htr
      have hpa : isActiveRow bkCol (lookupKey rec bkCol) a = true := List.find?_some hfinda
      have hmema : a ∈ base := List.mem_of_find?_eq_some hfinda
      obtain ⟨val, hval⟩ := truthy_dest htr
      have hbk : lookupKey (projectRecord schema detected rec) bkCol = lookupKey rec bkCol := by
        rw [hval]
        exact lookup_projectRecord schema detected rec bkCol hbkcol hbkres
          (hmulti rec (List.mem_cons_self _ _) detected hdet) val hval
      have hfindmap : (base.map (fun row =>
          if donePred row then { row with sync_time := now2 } else row)).find?
            (isActiveRow bkCol (lookupKey (projectRecord schema detected rec) bkCol)) =
          some (if donePred a then { a with sync_time := now2 } else a) := by
        rw [hbk]
        rw [find?_map_pres _ _ _
          (fun x => isActiveRow_if_pred_sync bkCol (lookupKey rec bkCol) donePred now2 x)]
        unfold activeRowFor at hfinda
        rw [hfinda]
        rfl
      have hjs : ((if donePred a then { a with sync_time := now2 } else a).json_response ==
          canonicalJson rec) = true := by
        rw [updF_json donePred now2 a, hjsona]
        exact beq_self_eq_true _
      rw [processApiRecord_run2_step schema bkCol now2 _ n rec detected
        (if donePred a then { a with sync_time := now2 } else a) htr hdet hfindmap hjs]
      simp only [Option.bind_eq_bind, Option.some_bind]
      have hsingle : base.filter (isActiveRow bkCol (some val)) = [a] := by
        apply eq_singleton_of_mem_of_length_le_one
        · exact List.mem_filter.mpr ⟨hmema, by rwa [hval] at hpa⟩
        · exact hAMO val
      have htblrw : ((base.map (fun row =>
          if donePred row then { row with sync_time := now2 } else row)).map (fun row =>
            if row.row_id == (if donePred a then { a with sync_time := now2 } else a).row_id then
              { row with sync_time := now2 }
            else row)) =
          base.map (fun row =>
            if (donePred row || touchedByOne bkCol rec row) then { row with sync_time := now2 }
            else row) := by
        rw [List.map_map]
        apply List.map_congr_left
        intro row hrow
        simp only [Function.comp, updF_row_id donePred now2 a]
        by_cases hid : ((if donePred row then { row with sync_time := now2 } else row).row_id
            == a.row_id) = true
        · have hida : (row.row_id == a.row_id) = true := by
            rwa [updF_row_id donePred now2 row] at hid
          have hrowa : row = a :=
            rowId_injective base hnodup hrow hmema (by simpa using hida)
          rw [if_pos hid]
          have htouch : touchedByOne bkCol rec row = true := by
            rw [hrowa]
            exact touchedByOne_of_active bkCol rec a htr hpa
          rw [htouch, Bool.or_true, if_pos rfl]
          by_cases hdp : donePred row = true
          · rw [if_pos hdp]
          · rw [if_neg hdp]
        · have hida : (row.row_id == a.row_id) = false := by
            rw [updF_row_id donePred now2 row] at hid
            cases hbb : (row.row_id == a.row_id)
            · rfl
            · exact absurd hbb hid
          rw [if_neg hid]
          have htouch : touchedByOne bkCol rec row = false := by
            cases hbb : touchedByOne bkCol rec row
            · rfl
            · exfalso
              have hact := active_of_touchedByOne bkCol rec row hbb
              have : row ∈ base.filter (isActiveRow bkCol (some val)) :=
                List.mem_filter.mpr ⟨hrow, by rwa [hval] at hact⟩
              rw [hsingle] at this
              have hra : row = a := by simpa using this
              rw [hra] at hida
              simp at hida
          rw [htouch, Bool.or_false]
      rw [htblrw]
      rw [ih base n (fun row => donePred row || touchedByOne bkCol rec row) hbkcol hbkres
        (fun r hr => hmulti r (List.mem_cons_of_mem _ hr)) hAMO hnodup
        (fun r hr => hactive r (List.mem_cons_of_mem _ hr))]
      have hpred : (fun row : EntityRow =>
          if (donePred row || touchedByOne bkCol rec row) || touchedBy bkCol rest row then
            { row with sync_time := now2 }
          else row) =
          (fun row : EntityRow =>
            if donePred row || touchedBy bkCol (rec :: rest) row then
              { row with sync_time := now2 }
            else row) := by
        funext row
        have : touchedBy bkCol (rec :: rest) row =
            (touchedByOne bkCol rec row || touchedBy bkCol rest row) := by
          simp [touchedBy]
        rw [this, Bool.or_assoc]
      rw [hpred]

/-! ### Claim C3: batch idempotence -/

/-- A two-column account schema with business key `accountid`. -/
def c3Schema : TableSchema :=
  ⟨"accounts",
   [⟨"accountid", "TEXT", none, true, none⟩, ⟨"name", "TEXT", none, true, none⟩],
   some "accountid", [], []⟩

/-- Two API records carrying the *same* primary-key value with different
payloads. -/
def c3Records : List ObjData :=
  [[("accountid", JVal.s "x"), ("name", JVal.s "A")],
   [("accountid", JVal.s "x"), ("name", JVal.s "B")]]

/-- Counterexample for C3 as stated: with two records sharing a primary-key
value, the first run reports `(added, updated) = (1, 1)` and the immediate
second run with the *same* records reports `updated = 2` and grows the
table from 2 to 4 rows — the claim's `added = 0 ∧ updated = 0 ∧ no new
rows` fails. -/
theorem upsert_batch_idempotence_counterexample :
    (upsert_batch [] 0 "accountid" c3Schema c3Records "t1").map
        (fun st => (st.added, st.updated, st.tbl.length)) = some (1, 1, 2)
    ∧ ((upsert_batch [] 0 "accountid" c3Schema c3Records "t1").bind (fun st1 =>
        upsert_batch st1.tbl st1.nextId "accountid" c3Schema c3Records "t2")).map
        (fun st => (st.added, st.updated, st.tbl.length)) = some (0, 2, 4) := by
  constructor <;> rfl

/-- C3 (amended).  Provided the primary-key column is one of the schema's
columns, is not an SCD2 system column name, is not detected as a
multi-select option set in any record, the records carry pairwise-distinct
truthy primary-key values, the initial table satisfies the at-most-one-
active invariant with distinct surrogate ids below the AUTOINCREMENT
counter, and the first run completes: then the second run over the same
records performs no inserts and no version closes — it returns
`added = 0`, `updated = 0`, the same AUTOINCREMENT counter, and the same
table with only the `sync_time` of the matched active rows refreshed.
Both runs canonicalize payloads identically (sorted keys, `@odata.`-keys
stripped), which is what makes every comparison hit the equal branch. -/
theorem upsert_batch_idempotent (tbl0 : List EntityRow) (n0 : Nat) (bkCol : String)
    (schema : TableSchema) (records : List ObjData) (now1 now2 : String)
    (st1 : BatchState)
    (hAMO : AtMostOneActive bkCol tbl0)
    (hnodup : NodupIds tbl0) (hfresh : FreshIds tbl0 n0)
    (hbkcol : bkCol ∈ schema.columns.map (·.name))
    (hbkres : RESERVED.contains bkCol = false)
    (hbkmulti : ∀ rec ∈ records, ∀ d, detectFromRecord rec = some d →
        isMultiSelectField d bkCol = false)
    (hdist : records.Pairwise (fun r1 r2 => truthy (lookupKey r1 bkCol) = true →
        truthy (lookupKey r2 bkCol) = true → lookupKey r1 bkCol ≠ lookupKey r2 bkCol))
    (hrun1 : upsert_batch tbl0 n0 bkCol schema records now1 = some st1) :
    upsert_batch st1.tbl st1.nextId bkCol schema records now2 =
      some ⟨st1.tbl.map (fun row =>
          if touchedBy bkCol records row then { row with sync_time := now2 } else row),
        st1.nextId, 0, 0⟩ := by
  obtain ⟨hAMO1, hnodup1, hfresh1, hfacts⟩ :=
    run1_fold_props schema bkCol now1 records ⟨tbl0, n0, 0, 0⟩ st1 hbkcol hbkres hbkmulti
      hdist hAMO hnodup hfresh hrun1
  have h2 := run2_fold schema bkCol now2 records st1.tbl st1.nextId (fun _ => false)
    hbkcol hbkres hbkmulti hAMO1 hnodup1 hfacts
  have hmapid : st1.tbl.map (fun row =>
      if (fun _ : EntityRow => false) row then { row with sync_time := now2 } else row) =
      st1.tbl := by
    simp
  rw [hmapid] at h2
  have hpred : (fun row : EntityRow =>
      if (fun _ : EntityRow => false) row || touchedBy bkCol records row then
        { row with sync_time := now2 }
      else row) =
      (fun row : EntityRow =>
        if touchedBy bkCol records row then { row with sync_time := now2 } else row) := by
    funext row
    simp
  rw [hpred] at h2
  exact h2

/-- The state after a concrete first run inserting one account. -/
def c3RunOne : BatchState :=
  ⟨[⟨0, [("accountid", JVal.s "x"), ("name", JVal.s "A")],
      [("accountid", JVal.s "x"), ("name", JVal.s "A")], "t1", "t1", none⟩],
   1, 1, 0⟩

/-- One well-formed record batch (distinct primary keys). -/
def c3GoodRecords : List ObjData := [[("accountid", JVal.s "x"), ("name", JVal.s "A")]]

/-- Witness for C3 (amended): re-running a concrete one-record batch
refreshes only `sync_time` and reports `(0, 0)`. -/
theorem upsert_batch_idempotent_witness :
    upsert_batch c3RunOne.tbl c3RunOne.nextId "accountid" c3Schema c3GoodRecords "t2" =
      some ⟨c3RunOne.tbl.map (fun row =>
          if touchedBy "accountid" c3GoodRecords row then { row with sync_time := "t2" }
          else row),
        c3RunOne.nextId, 0, 0⟩ := by
  apply upsert_batch_idempotent [] 0 "accountid" c3Schema c3GoodRecords "t1" "t2" c3RunOne
  · intro k
    simp [AtMostOneActive]
  · simp [NodupIds]
  · intro row hrow
    cases hrow
  · decide
  · decide
  · intro rec hr d hd
    have hr' : rec = [("accountid", JVal.s "x"), ("name", JVal.s "A")] := by
      simpa [c3GoodRecords] using hr
    rw [hr'] at hd
    have hdet : detectFromRecord [("accountid", JVal.s "x"), ("name", JVal.s "A")] =
        some [] := rfl
    rw [hdet] at hd
    injection hd with hd'
    rw [← hd']
    rfl
  · simp [c3GoodRecords]
  · rfl

end IghDataSync
